import Mathlib

/-!
Verification of the zchunk-rs codec against its specification.

The development shallowly embeds the Rust sources (`src/types.rs`,
`src/chunker.rs`, `src/format.rs`) into Lean:

* bytes are `Nat` values (callers keep them below 256, matching `u8`);
* byte streams are `List Nat`; the decoder's seekable reader is a pair of
  the full byte list and a position;
* machine-integer casts (`as u32`, `as u64`, `as u8`) become explicit
  `% 2 ^ 32`, `% 2 ^ 64`, `% 256`;
* fallible operations return `Except ZchunkError`;
* the zstd codec and the SHA-2 hash functions are external collaborators
  and are passed in as function parameters wherever the code uses them.
-/

set_option maxRecDepth 4000

namespace Zchunk

/-- Mirror of `ZchunkError` from `src/errors.rs`.  `io::Error` values are
represented by their message string. -/
inductive ZchunkError where
  | ioError (msg : String) : ZchunkError
  | tryFromSlice : ZchunkError
  | invalidLeaderID (id : List Nat) : ZchunkError
  | invalidChecksumType (t : Nat) : ZchunkError
  | invalidCompressionType (t : Nat) : ZchunkError
  | invalidHeaderMagic (expected found : Nat) : ZchunkError
  | invalidHeaderSize (expected found : Nat) : ZchunkError
  | invalidIndexSize (expected found : Nat) : ZchunkError
  | sizeNotMatch (expected found : Nat) : ZchunkError
  | headerNotFound : ZchunkError
  | chunkNotFound (i : Nat) : ZchunkError
  | chunkChecksumNotMatch (len : Nat) (expected found : List Nat) : ZchunkError
deriving DecidableEq

/-- `VariantInt` from `src/types.rs`: a little-endian base-128 integer kept
as its raw byte vector. -/
structure VariantInt where
  bytes : List Nat
deriving DecidableEq

namespace VariantInt

/-- The loop of `impl From<u64> for VariantInt`:
`while num >= 0x80 { bytes.push((num as u8) & 0x7f); num >>= 7 }` followed by
`bytes.push((num as u8) | 0x80)`. -/
def fromU64Loop (num : Nat) : List Nat :=
  if _h : num ≥ 0x80 then ((num % 256) &&& 0x7f) :: fromU64Loop (num >>> 7)
  else [(num % 256) ||| 0x80]
termination_by num
decreasing_by
  simp only [Nat.shiftRight_eq_div_pow]
  omega

/-- `VariantInt::from(value: u64)`.  The argument plays the role of a `u64`,
so callers pass values below `2 ^ 64`. -/
def fromU64 (value : Nat) : VariantInt := ⟨fromU64Loop value⟩

/-- The accumulation loop of `VariantInt::to_u64`: for each byte, take its
low 7 bits shifted by `7 * i` (a `u64` shift, hence the truncation to 64
bits) and or it into the accumulator; stop at the first byte whose high bit
is set. -/
def toU64Loop : List Nat → Nat → Nat → Nat
  | [], num, _ => num
  | b :: rest, num, i =>
    let num := num ||| (((b &&& 0x7f) <<< (7 * i)) % 2 ^ 64)
    if b &&& 0x80 ≠ 0 then num else toU64Loop rest num (i + 1)

/-- `VariantInt::to_u64`: fails when the byte vector exceeds 10 bytes,
otherwise decodes it. -/
def toU64 (v : VariantInt) : Except ZchunkError Nat :=
  if v.bytes.length > 10 then
    .error (.ioError "VariantInt has greater than 10 bytes")
  else .ok (toU64Loop v.bytes 0 0)

/-- `VariantInt::byte_size`. -/
def byte_size (v : VariantInt) : Nat := v.bytes.length

/-- `VariantInt::write_to` writes the raw byte vector. -/
def write_to (v : VariantInt) : List Nat := v.bytes

/-- `VariantInt::from_bytes`. -/
def from_bytes (b : List Nat) : VariantInt := ⟨b⟩

end VariantInt

/-- The loop of `ReadVariantInt::read_variant_int` over a list byte source:
read single bytes, pushing each onto `bs`, until one with the high bit set
appears; reading past the end of the source is an `UnexpectedEof` failure of
`read_exact`.  Returns the collected `VariantInt` and the unread remainder
of the source. -/
def readVariantIntLoop : List Nat → List Nat → Except ZchunkError (VariantInt × List Nat)
  | [], _ => .error (.ioError "failed to fill whole buffer")
  | b :: rest, bs =>
    if b &&& 0x80 ≠ 0 then .ok (⟨bs ++ [b]⟩, rest)
    else readVariantIntLoop rest (bs ++ [b])

/-- `read_variant_int` on a byte source modelled as a list. -/
def readVariantInt (src : List Nat) : Except ZchunkError (VariantInt × List Nat) :=
  readVariantIntLoop src []

namespace VariantInt

theorem and_0x7f_eq_mod (b : Nat) : b &&& 0x7f = b % 128 := by
  have h := Nat.and_pow_two_sub_one_eq_mod b 7
  norm_num at h
  exact h

theorem lt_128_and_0x80 : ∀ a, a < 128 → a &&& 0x80 = 0 := by decide

theorem lt_128_lor_0x80_and_0x7f : ∀ a, a < 128 → (a ||| 0x80) &&& 0x7f = a := by decide

theorem lt_128_lor_0x80_and_0x80 : ∀ a, a < 128 → (a ||| 0x80) &&& 0x80 = 0x80 := by decide

theorem fromU64Loop_small (num : Nat) (h : num < 0x80) :
    fromU64Loop num = [(num % 256) ||| 0x80] := by
  rw [fromU64Loop, dif_neg (by omega)]

theorem fromU64Loop_big (num : Nat) (h : num ≥ 0x80) :
    fromU64Loop num = ((num % 256) &&& 0x7f) :: fromU64Loop (num >>> 7) := by
  rw [fromU64Loop, dif_pos h]

theorem fromU64Loop_length (k : Nat) :
    ∀ num, num < 128 ^ (k + 1) → (fromU64Loop num).length ≤ k + 1 := by
  induction k with
  | zero =>
    intro num h
    rw [fromU64Loop_small num (by simpa using h)]
    simp
  | succ k ih =>
    intro num h
    by_cases hc : num ≥ 0x80
    · rw [fromU64Loop_big num hc]
      simp only [List.length_cons]
      have hlt : num >>> 7 < 128 ^ (k + 1) := by
        rw [Nat.shiftRight_eq_div_pow]
        have : (2 : Nat) ^ 7 = 128 := by norm_num
        rw [this]
        rw [Nat.div_lt_iff_lt_mul (by norm_num : (0 : Nat) < 128)]
        calc num < 128 ^ (k + 1 + 1) := h
          _ = 128 ^ (k + 1) * 128 := by ring
      have := ih (num >>> 7) hlt
      omega
    · rw [fromU64Loop_small num (by omega)]
      simp

theorem lor_shift_eq_add (acc m i : Nat) (hacc : acc < 2 ^ (7 * i))
    (hm : m * 2 ^ (7 * i) < 2 ^ 64) :
    acc ||| ((m <<< (7 * i)) % 2 ^ 64) = acc + m * 2 ^ (7 * i) := by
  rw [Nat.shiftLeft_eq, Nat.mod_eq_of_lt hm]
  have h := Nat.mul_add_lt_is_or hacc m
  rw [Nat.mul_comm (2 ^ (7 * i)) m] at h
  rw [Nat.lor_comm, ← h]
  omega

theorem toU64Loop_fromU64Loop (num : Nat) :
    ∀ i acc, num < 2 ^ (64 - 7 * i) → acc < 2 ^ (7 * i) → 7 * i ≤ 63 →
      toU64Loop (fromU64Loop num) acc i = acc + num * 2 ^ (7 * i) := by
  induction num using Nat.strong_induction_on with
  | _ num ih =>
    intro i acc hnum hacc hi
    by_cases hc : num ≥ 0x80
    · -- continuation byte, then recurse on `num >>> 7`
      have h7i : 7 * i ≤ 56 := by
        by_contra hgt
        have h64 : 64 - 7 * i ≤ 7 := by omega
        have : num < 2 ^ 7 :=
          lt_of_lt_of_le hnum (Nat.pow_le_pow_right (by norm_num) h64)
        norm_num at this
        omega
      have hb : (num % 256) &&& 0x7f = num % 128 := by
        rw [and_0x7f_eq_mod, Nat.mod_mod_of_dvd _ (by norm_num)]
      rw [fromU64Loop_big num hc, toU64Loop, hb]
      have hmod : num % 128 < 128 := Nat.mod_lt _ (by norm_num)
      rw [if_neg (by simpa using lt_128_and_0x80 _ hmod)]
      have hb2 : (num % 128) &&& 0x7f = num % 128 := by
        rw [and_0x7f_eq_mod]
        exact Nat.mod_eq_of_lt hmod
      rw [hb2]
      have hmlt : (num % 128) * 2 ^ (7 * i) < 2 ^ 64 := by
        calc (num % 128) * 2 ^ (7 * i) < 2 ^ 7 * 2 ^ (7 * i) := by
              exact Nat.mul_lt_mul_of_lt_of_le (by norm_num at hmod ⊢; omega)
                (le_refl _) (Nat.pos_pow_of_pos _ (by norm_num))
          _ = 2 ^ (7 + 7 * i) := by rw [pow_add]
          _ ≤ 2 ^ 64 := Nat.pow_le_pow_right (by norm_num) (by omega)
      rw [lor_shift_eq_add acc (num % 128) i hacc hmlt]
      have hrec := ih (num >>> 7)
        (by rw [Nat.shiftRight_eq_div_pow]
            exact Nat.div_lt_self (by omega) (by norm_num)) (i + 1)
        (acc + (num % 128) * 2 ^ (7 * i))
      rw [hrec]
      · have hsplit : num = 128 * (num >>> 7) + num % 128 := by
          rw [Nat.shiftRight_eq_div_pow]
          have := Nat.div_add_mod num 128
          norm_num
          omega
        rw [show 7 * (i + 1) = 7 * i + 7 by ring, pow_add]
        conv_rhs => rw [hsplit]
        ring
      · rw [Nat.shiftRight_eq_div_pow]
        have h128 : (2 : Nat) ^ 7 = 128 := by norm_num
        rw [h128, Nat.div_lt_iff_lt_mul (by norm_num : (0 : Nat) < 128)]
        calc num < 2 ^ (64 - 7 * i) := hnum
          _ = 2 ^ (64 - 7 * (i + 1)) * 128 := by
              rw [← h128, ← pow_add]
              congr 1
              omega
      · have h1 : (num % 128) * 2 ^ (7 * i) ≤ 127 * 2 ^ (7 * i) :=
          Nat.mul_le_mul_right _ (by omega)
        calc acc + (num % 128) * 2 ^ (7 * i) < 2 ^ (7 * i) + 127 * 2 ^ (7 * i) := by omega
          _ = 2 ^ (7 * i + 7) := by rw [pow_add]; ring_nf
          _ = 2 ^ (7 * (i + 1)) := by ring_nf
      · omega
    · -- terminal byte
      push_neg at hc
      have hnum256 : num % 256 = num := Nat.mod_eq_of_lt (by omega)
      rw [fromU64Loop_small num hc, toU64Loop, hnum256]
      rw [lt_128_lor_0x80_and_0x7f num hc]
      rw [if_pos (by rw [lt_128_lor_0x80_and_0x80 num hc]; norm_num)]
      have hmlt : num * 2 ^ (7 * i) < 2 ^ 64 := by
        calc num * 2 ^ (7 * i) < 2 ^ (64 - 7 * i) * 2 ^ (7 * i) :=
              Nat.mul_lt_mul_of_lt_of_le hnum (le_refl _)
                (Nat.pos_pow_of_pos _ (by norm_num))
          _ = 2 ^ 64 := by rw [← pow_add]; congr 1; omega
      exact lor_shift_eq_add acc num i hacc hmlt

theorem fromU64Loop_length_le_ten (n : Nat) (h : n < 2 ^ 64) :
    (fromU64Loop n).length ≤ 10 := by
  apply fromU64Loop_length 9
  calc n < 2 ^ 64 := h
    _ ≤ 128 ^ 10 := by norm_num

theorem toU64_fromU64 (n : Nat) (h : n < 2 ^ 64) :
    (fromU64 n).toU64 = .ok n := by
  have hlen := fromU64Loop_length_le_ten n h
  have hb : (fromU64 n).bytes = fromU64Loop n := rfl
  rw [toU64, hb, if_neg (by omega)]
  congr 1
  have := toU64Loop_fromU64Loop n 0 0 (by simpa using h) (by norm_num) (by norm_num)
  simpa using this

end VariantInt

/-- C7: for every `n` in `[0, 2 ^ 64)`, decoding the varint encoding of `n`
returns `n`: `VariantInt::from(n).to_u64() = Ok(n)`. -/
theorem variant_int_roundtrip (n : Nat) (h : n < 2 ^ 64) :
    (VariantInt.fromU64 n).toU64 = .ok n :=
  VariantInt.toU64_fromU64 n h

/-- Witness for C7 at the concrete input `n = 300` (a two-byte encoding). -/
theorem variant_int_roundtrip_witness :
    300 < 2 ^ 64 ∧ (VariantInt.fromU64 300).toU64 = .ok 300 :=
  ⟨by norm_num, variant_int_roundtrip 300 (by norm_num)⟩

theorem readVariantIntLoop_ok_length (src : List Nat) :
    ∀ acc v rest, readVariantIntLoop src acc = .ok (v, rest) →
      acc.length + 1 ≤ v.bytes.length := by
  induction src with
  | nil => intro acc v rest h; simp [readVariantIntLoop] at h
  | cons b r ih =>
    intro acc v rest h
    rw [readVariantIntLoop] at h
    by_cases hb : b &&& 0x80 ≠ 0
    · rw [if_pos hb] at h
      cases h
      simp
    · rw [if_neg hb] at h
      have := ih (acc ++ [b]) v rest h
      simp at this
      omega

theorem readVariantIntLoop_clear_length (n : Nat) :
    ∀ src acc v rest, (∀ i < n, (src.getD i 0) &&& 0x80 = 0) →
      readVariantIntLoop src acc = .ok (v, rest) →
      acc.length + n + 1 ≤ v.bytes.length := by
  induction n with
  | zero =>
    intro src acc v rest _ h
    simpa using readVariantIntLoop_ok_length src acc v rest h
  | succ n ih =>
    intro src acc v rest hclear h
    match src with
    | [] => simp [readVariantIntLoop] at h
    | b :: r =>
      have hb : b &&& 0x80 = 0 := by simpa using hclear 0 (by omega)
      rw [readVariantIntLoop, if_neg (by simp [hb])] at h
      have hr : ∀ i < n, (r.getD i 0) &&& 0x80 = 0 := by
        intro i hi
        simpa using hclear (i + 1) (by omega)
      have := ih r (acc ++ [b]) v rest hr h
      simp at this
      omega

/-- C8 counterexample: a byte source whose first 11 bytes all have the high
bit clear on which `read_variant_int` does NOT return an error — it keeps
consuming and succeeds after reading 12 bytes (11 zero bytes plus the
terminator `0x80`). -/
theorem read_variant_int_consumes_past_eleven :
    (∀ i < 11, ((List.replicate 11 0 ++ [0x80]).getD i 0) &&& 0x80 = 0) ∧
      readVariantInt (List.replicate 11 0 ++ [0x80]) =
        .ok (⟨List.replicate 11 0 ++ [0x80]⟩, []) :=
  ⟨by decide, rfl⟩

/-- C8 amended: `read_variant_int` itself never stops early — it consumes
bytes until a terminator (or end of input).  The more-than-10-bytes failure
happens in `VariantInt::to_u64`: whenever the first 11 bytes of the source
have the high bit clear and the read succeeds, decoding the returned varint
fails. -/
theorem read_variant_int_overlong_to_u64_fails (src : List Nat) (v : VariantInt)
    (rest : List Nat) (hclear : ∀ i < 11, (src.getD i 0) &&& 0x80 = 0)
    (hread : readVariantInt src = .ok (v, rest)) :
    v.toU64 = .error (.ioError "VariantInt has greater than 10 bytes") := by
  have hlen := readVariantIntLoop_clear_length 11 src [] v rest hclear hread
  simp at hlen
  rw [VariantInt.toU64, if_pos (by omega)]

/-- Witness for the amended C8 at a concrete 12-byte source. -/
theorem read_variant_int_overlong_witness :
    (⟨List.replicate 11 0 ++ [0x80]⟩ : VariantInt).toU64 =
      .error (.ioError "VariantInt has greater than 10 bytes") :=
  read_variant_int_overlong_to_u64_fails (List.replicate 11 0 ++ [0x80])
    ⟨List.replicate 11 0 ++ [0x80]⟩ [] (by decide) (by rfl)

end Zchunk

namespace Zchunk

/-- `CHUNKER_WINDOW_SIZE` from `src/chunker.rs`. -/
def CHUNKER_WINDOW_SIZE : Nat := 48

/-- `CHUNKER_BUZHASH_BITMASK = 2 ^ 15 - 1`. -/
def CHUNKER_BUZHASH_BITMASK : Nat := 2 ^ 15 - 1

/-- `CHUNKER_SIZE_MIN_DEFAULT = (BITMASK + 1) / 4 = 8192`. -/
def CHUNKER_SIZE_MIN_DEFAULT : Nat := (CHUNKER_BUZHASH_BITMASK + 1) / 4

/-- `CHUNKER_SIZE_MAX_DEFAULT = (BITMASK + 1) * 4 = 131072`. -/
def CHUNKER_SIZE_MAX_DEFAULT : Nat := (CHUNKER_BUZHASH_BITMASK + 1) * 4

/-- The fixed Buzhash substitution table `HASH_TABLE` from `src/chunker.rs`. -/
def HASH_TABLE : List Nat := [
  0x458be752, 0xc10748cc, 0xfbbcdbb8, 0x6ded5b68, 0xb10a82b5, 0x20d75648, 0xdfc5665f, 0xa8428801,
  0x7ebf5191, 0x841135c7, 0x65cc53b3, 0x280a597c, 0x16f60255, 0xc78cbc3e, 0x294415f5, 0xb938d494,
  0xec85c4e6, 0xb7d33edc, 0xe549b544, 0xfdeda5aa, 0x882bf287, 0x3116737c, 0x05569956, 0xe8cc1f68,
  0x0806ac5e, 0x22a14443, 0x15297e10, 0x50d090e7, 0x4ba60f6f, 0xefd9f1a7, 0x5c5c885c, 0x82482f93,
  0x9bfd7c64, 0x0b3e7276, 0xf2688e77, 0x8fad8abc, 0xb0509568, 0xf1ada29f, 0xa53efdfe, 0xcb2b1d00,
  0xf2a9e986, 0x6463432b, 0x95094051, 0x5a223ad2, 0x9be8401b, 0x61e579cb, 0x1a556a14, 0x5840fdc2,
  0x9261ddf6, 0xcde002bb, 0x52432bb0, 0xbf17373e, 0x7b7c222f, 0x2955ed16, 0x9f10ca59, 0xe840c4c9,
  0xccabd806, 0x14543f34, 0x1462417a, 0x0d4a1f9c, 0x087ed925, 0xd7f8f24c, 0x7338c425, 0xcf86c8f5,
  0xb19165cd, 0x9891c393, 0x325384ac, 0x0308459d, 0x86141d7e, 0xc922116a, 0xe2ffa6b6, 0x53f52aed,
  0x2cd86197, 0xf5b9f498, 0xbf319c8f, 0xe0411fae, 0x977eb18c, 0xd8770976, 0x9833466a, 0xc674df7f,
  0x8c297d45, 0x8ca48d26, 0xc49ed8e2, 0x7344f874, 0x556f79c7, 0x6b25eaed, 0xa03e2b42, 0xf68f66a4,
  0x8e8b09a2, 0xf2e0e62a, 0x0d3a9806, 0x9729e493, 0x8c72b0fc, 0x160b94f6, 0x450e4d3d, 0x7a320e85,
  0xbef8f0e1, 0x21d73653, 0x4e3d977a, 0x1e7b3929, 0x1cc6c719, 0xbe478d53, 0x8d752809, 0xe6d8c2c6,
  0x275f0892, 0xc8acc273, 0x4cc21580, 0xecc4a617, 0xf5f7be70, 0xe795248a, 0x375a2fe9, 0x425570b6,
  0x8898dcf8, 0xdc2d97c4, 0x0106114b, 0x364dc22f, 0x1e0cad1f, 0xbe63803c, 0x5f69fac2, 0x4d5afa6f,
  0x1bc0dfb5, 0xfb273589, 0x0ea47f7b, 0x3c1c2b50, 0x21b2a932, 0x6b1223fd, 0x2fe706a8, 0xf9bd6ce2,
  0xa268e64e, 0xe987f486, 0x3eacf563, 0x1ca2018c, 0x65e18228, 0x2207360a, 0x57cf1715, 0x34c37d2b,
  0x1f8f3cde, 0x93b657cf, 0x31a019fd, 0xe69eb729, 0x8bca7b9b, 0x4c9d5bed, 0x277ebeaf, 0xe0d8f8ae,
  0xd150821c, 0x31381871, 0xafc3f1b0, 0x927db328, 0xe95effac, 0x305a47bd, 0x426ba35b, 0x1233af3f,
  0x686a5b83, 0x50e072e5, 0xd9d3bb2a, 0x8befc475, 0x487f0de6, 0xc88dff89, 0xbd664d5e, 0x971b5d18,
  0x63b14847, 0xd7d3c1ce, 0x7f583cf3, 0x72cbcb09, 0xc0d0a81c, 0x7fa3429b, 0xe9158a1b, 0x225ea19a,
  0xd8ca9ea3, 0xc763b282, 0xbb0c6341, 0x020b8293, 0xd4cd299d, 0x58cfa7f8, 0x91b4ee53, 0x37e4d140,
  0x95ec764c, 0x30f76b06, 0x5ee68d24, 0x679c8661, 0xa41979c2, 0xf2b61284, 0x4fac1475, 0x0adb49f9,
  0x19727a23, 0x15a7e374, 0xc43a18d5, 0x3fb1aa73, 0x342fc615, 0x924c0793, 0xbee2d7f0, 0x8a279de9,
  0x4aa2d70c, 0xe24dd37f, 0xbe862c0b, 0x177c22c2, 0x5388e5ee, 0xcd8a7510, 0xf901b4fd, 0xdbc13dbc,
  0x6c0bae5b, 0x64efe8c7, 0x48b02079, 0x80331a49, 0xca3d8ae6, 0xf3546190, 0xfed7108b, 0xc49b941b,
  0x32baf4a9, 0xeb833a4a, 0x88a3f1a5, 0x3a91ce0a, 0x3cc27da1, 0x7112e684, 0x4a3096b1, 0x3794574c,
  0xa3c8b6f3, 0x1d213941, 0x6e0a2e00, 0x233479f1, 0x0f4cd82f, 0x6093edd2, 0x5d7d209e, 0x464fe319,
  0xd4dcac9e, 0x0db845cb, 0xfb5e4bc3, 0xe0256ce1, 0x09fb4ed1, 0x0914be1e, 0xa5bdb2c3, 0xc6eb57bb,
  0x30320350, 0x3f397e91, 0xa67791bc, 0x86bc0e2c, 0xefa0a7e2, 0xe9ff7543, 0xe733612c, 0xd185897b,
  0x329e5388, 0x91dd236b, 0x2ecb0d93, 0xf4d82a3d, 0x35b5c03f, 0xe4e606f0, 0x05b21843, 0x37b45964,
  0x5eff22f4, 0x6027f4cc, 0x77178b3c, 0xae507131, 0x7bf7cabc, 0xf9c18d66, 0x593ade65, 0xd95ddf11]

/-- `u32::rotate_left` on values below `2 ^ 32`. -/
def rotl32 (x n : Nat) : Nat :=
  ((x <<< (n % 32)) % 2 ^ 32) ||| (x >>> (32 - n % 32))

/-- The `Chunker` state from `src/chunker.rs`.  The `reader` is modelled as
the list of bytes not yet read (`input`); a read request for `n` bytes
returns `min n input.length` bytes, as `Read::read` does on an in-memory
source, so the `reach_eof` flag never becomes relevant and read errors
cannot occur. -/
structure Chunker where
  min : Nat
  max : Nat
  bitmask : Nat
  buf : List Nat
  input : List Nat
deriving DecidableEq

namespace Chunker

/-- `Chunker::new`. -/
def new (min max bitmask : Nat) (input : List Nat) : Chunker :=
  ⟨min, max, bitmask, [], input⟩

/-- `Chunker::default`, wiring in the default parameters. -/
def defaultNew (input : List Nat) : Chunker :=
  new CHUNKER_SIZE_MIN_DEFAULT CHUNKER_SIZE_MAX_DEFAULT CHUNKER_BUZHASH_BITMASK input

/-- `Chunker::fill_buffer`: top the buffer up to `max` bytes from the
reader. -/
def fillBuffer (c : Chunker) : Chunker :=
  if c.buf.length < c.max then
    { c with
      buf := c.buf ++ c.input.take (c.max - c.buf.length),
      input := c.input.drop (c.max - c.buf.length) }
  else c

/-- The initial sliding window `buf[first_window_start..first_window_end]`
of `Chunker::next`. -/
def firstWindow (min : Nat) (buf : List Nat) : List Nat :=
  let s := if min > CHUNKER_WINDOW_SIZE then min - CHUNKER_WINDOW_SIZE else 0
  let e := if min > CHUNKER_WINDOW_SIZE then min else CHUNKER_WINDOW_SIZE
  (buf.drop s).take (e - s)

/-- Initial Buzhash over the window:
`checksum ^= HASH_TABLE[b].rotate_left(WINDOW - i - 1)` for each window
byte. -/
def buzhashInit (window : List Nat) : Nat :=
  window.enum.foldl
    (fun checksum p =>
      checksum ^^^ rotl32 (HASH_TABLE.getD p.2 0) (CHUNKER_WINDOW_SIZE - p.1 - 1)) 0

/-- The boundary-scanning loop of `Chunker::next` over `buf[min..]`:
rotate a byte through the window, update the rolling hash, and return the
enumeration index `i` of the first byte after which
`checksum & bitmask == 0`, if any. -/
def scanLoop (bitmask : Nat) : List Nat → List Nat → Nat → Nat → Nat → Option Nat
  | [], _, _, _, _ => none
  | b :: rest, window, idx, checksum, i =>
    let out := window.getD idx 0
    let window := window.set idx b
    let idx := (idx + 1) % CHUNKER_WINDOW_SIZE
    let checksum := rotl32 checksum 1 ^^^
      rotl32 (HASH_TABLE.getD out 0) CHUNKER_WINDOW_SIZE ^^^ HASH_TABLE.getD b 0
    if checksum &&& bitmask = 0 then some i
    else scanLoop bitmask rest window idx checksum (i + 1)

/-- `Chunker::next` (the `Iterator` implementation): refill, detect end of
stream, the short-final-buffer case, and otherwise scan for a boundary;
`drain(..k)` becomes `take k` for the emitted chunk and `drop k` for the
retained buffer. -/
def next (c0 : Chunker) : Option (List Nat × Chunker) :=
  let c := c0.fillBuffer
  if c.buf.length = 0 then none
  else if c.buf.length < c.min then some (c.buf, { c with buf := [] })
  else
    match scanLoop c.bitmask (c.buf.drop c.min) (firstWindow c.min c.buf) 0
        (buzhashInit (firstWindow c.min c.buf)) 0 with
    | some i => some (c.buf.take (c.min + i), { c with buf := c.buf.drop (c.min + i) })
    | none => some (c.buf, { c with buf := [] })

/-- Driving the iterator to exhaustion, with explicit fuel. -/
def run : Nat → Chunker → List (List Nat)
  | 0, _ => []
  | fuel + 1, c =>
    match c.next with
    | none => []
    | some (chunk, c2) => chunk :: run fuel c2

end Chunker

/-- The full chunk sequence the chunker yields on `input`.
`input.length + 1` units of fuel are enough because every emitted chunk
consumes at least one byte (proved below for `min ≥ 1`). -/
def chunkerChunks (min max bitmask : Nat) (input : List Nat) : List (List Nat) :=
  Chunker.run (input.length + 1) (Chunker.new min max bitmask input)

end Zchunk

namespace Zchunk

namespace Chunker

theorem scanLoop_some_bounds (bitmask : Nat) :
    ∀ (rest window : List Nat) (idx checksum i0 j : Nat),
      scanLoop bitmask rest window idx checksum i0 = some j →
      i0 ≤ j ∧ j < i0 + rest.length := by
  intro rest
  induction rest with
  | nil => intro window idx checksum i0 j h; simp [scanLoop] at h
  | cons b r ih =>
    intro window idx checksum i0 j h
    simp only [scanLoop] at h
    split at h
    · cases h
      simp
    · have := ih _ _ _ _ _ h
      simp only [List.length_cons]
      omega

theorem fillBuffer_min (c : Chunker) : c.fillBuffer.min = c.min := by
  rw [fillBuffer]; split <;> rfl

theorem fillBuffer_max (c : Chunker) : c.fillBuffer.max = c.max := by
  rw [fillBuffer]; split <;> rfl

theorem fillBuffer_bitmask (c : Chunker) : c.fillBuffer.bitmask = c.bitmask := by
  rw [fillBuffer]; split <;> rfl

theorem fillBuffer_buf_le (c : Chunker) (h : c.buf.length ≤ c.max) :
    c.fillBuffer.buf.length ≤ c.max := by
  rw [fillBuffer]
  split
  · simp only [List.length_append, List.length_take]
    omega
  · exact h

theorem fillBuffer_concat (c : Chunker) :
    c.fillBuffer.buf ++ c.fillBuffer.input = c.buf ++ c.input := by
  rw [fillBuffer]
  split
  · simp [List.take_append_drop]
  · rfl

theorem fillBuffer_short_input (c : Chunker) (hmm : c.min ≤ c.max)
    (h : c.fillBuffer.buf.length < c.min) : c.fillBuffer.input = [] := by
  rw [fillBuffer] at h ⊢
  split at h
  · next hlt =>
    rw [if_pos hlt]
    simp only [List.length_append, List.length_take] at h
    apply List.drop_eq_nil_of_le
    omega
  · next hge => omega

theorem fillBuffer_of_empty (c : Chunker) (hb : c.buf = []) (hi : c.input = []) :
    c.fillBuffer.buf = [] := by
  rw [fillBuffer]
  split <;> simp [hb, hi]

theorem next_of_empty (c : Chunker) (h : c.fillBuffer.buf.length = 0) :
    c.next = none := by
  rw [next]
  exact if_pos h

theorem next_some_spec (c : Chunker) (chunk : List Nat) (c2 : Chunker)
    (h1 : 1 ≤ c.min) (hmm : c.min ≤ c.max) (h : c.next = some (chunk, c2)) :
    c2.min = c.min ∧ c2.max = c.max ∧ c2.bitmask = c.bitmask ∧
    chunk ++ c2.buf = c.fillBuffer.buf ∧
    c2.input = c.fillBuffer.input ∧
    1 ≤ chunk.length ∧
    chunk.length ≤ c.fillBuffer.buf.length ∧
    (chunk.length < c.min → c2.buf = [] ∧ c2.input = []) := by
  have hfmin := fillBuffer_min c
  have hfmax := fillBuffer_max c
  have hfbm := fillBuffer_bitmask c
  rw [next] at h
  split at h
  · exact absurd h (by simp)
  · next hne =>
    split at h
    · next hshort =>
      cases h
      refine ⟨hfmin, hfmax, hfbm, by simp, rfl, by omega, le_refl _, fun _ => ⟨rfl, ?_⟩⟩
      exact fillBuffer_short_input c (by omega) (by omega)
    · next hlong =>
      split at h
      · next i hscan =>
        have hb := scanLoop_some_bounds _ _ _ _ _ _ _ hscan
        have hlt : c.fillBuffer.min + i < c.fillBuffer.buf.length := by
          have h2 := hb.2
          rw [List.length_drop] at h2
          omega
        cases h
        have hlen : (c.fillBuffer.buf.take (c.fillBuffer.min + i)).length
            = c.fillBuffer.min + i := by
          rw [List.length_take]
          omega
        refine ⟨hfmin, hfmax, hfbm, List.take_append_drop _ _, rfl, ?_, ?_, ?_⟩
        · rw [hlen]; omega
        · rw [hlen]; omega
        · intro hcon
          rw [hlen] at hcon
          omega
      · cases h
        exact ⟨hfmin, hfmax, hfbm, by simp, rfl, by omega, le_refl _,
          fun hcon => absurd hcon (by omega)⟩

theorem run_sound (minv maxv bm : Nat) (h1 : 1 ≤ minv) (hmm : minv ≤ maxv) :
    ∀ (fuel : Nat) (c : Chunker), c.min = minv → c.max = maxv → c.bitmask = bm →
      c.buf.length ≤ maxv →
      (∀ ch ∈ Chunker.run fuel c, 1 ≤ ch.length ∧ ch.length ≤ maxv) ∧
      (∀ i, i + 1 < (Chunker.run fuel c).length →
        minv ≤ ((Chunker.run fuel c).getD i []).length) := by
  intro fuel
  induction fuel with
  | zero => intro c _ _ _ _; simp [run]
  | succ fuel ih =>
    intro c hcmin hcmax hcbm hbuf
    rw [run]
    cases hnext : c.next with
    | none => simp
    | some pair =>
      obtain ⟨chunk, c2⟩ := pair
      have hspec := next_some_spec c chunk c2 (by omega) (by omega) hnext
      obtain ⟨e1, e2, e3, hcat, hinp, hone, hle, hshort⟩ := hspec
      have hfill_le : c.fillBuffer.buf.length ≤ maxv := by
        rw [← hcmax]
        exact fillBuffer_buf_le c (by omega)
      have hc2buf : c2.buf.length ≤ maxv := by
        have : chunk.length + c2.buf.length = c.fillBuffer.buf.length := by
          rw [← hcat, List.length_append]
        omega
      have hih := ih c2 (by omega) (by omega) (by rw [e3, hcbm]) hc2buf
      constructor
      · intro ch hch
        simp only [List.mem_cons] at hch
        rcases hch with rfl | hch
        · exact ⟨hone, by omega⟩
        · exact hih.1 ch hch
      · intro i hi
        match i with
        | 0 =>
          simp only [List.getD_cons_zero]
          simp only [List.length_cons] at hi
          -- the chunk is not last, so the run on c2 is nonempty
          by_contra hconlt
          push_neg at hconlt
          rw [← hcmin] at hconlt
          obtain ⟨hb2, hi2⟩ := hshort hconlt
          have hempty : c2.fillBuffer.buf = [] := fillBuffer_of_empty c2 hb2 hi2
          have : Chunker.run fuel c2 = [] := by
            cases fuel with
            | zero => rfl
            | succ f =>
              rw [run, next_of_empty c2 (by rw [hempty]; rfl)]
          rw [this] at hi
          simp at hi
        | Nat.succ j =>
          simp only [List.getD_cons_succ]
          apply hih.2
          simp only [List.length_cons] at hi
          omega

end Chunker

/-- C6: for every input (and any chunker parameters with `1 ≤ MIN ≤ MAX`;
the defaults are `MIN = 8192`, `MAX = 131072`), every chunk the chunker
produces has length in `[1, MAX]`, and every chunk except the last has
length at least `MIN`. -/
theorem chunker_length_invariant (minv maxv bitmask : Nat) (input : List Nat)
    (h1 : 1 ≤ minv) (h2 : minv ≤ maxv) :
    (∀ ch ∈ chunkerChunks minv maxv bitmask input,
        1 ≤ ch.length ∧ ch.length ≤ maxv) ∧
    (∀ i, i + 1 < (chunkerChunks minv maxv bitmask input).length →
      minv ≤ ((chunkerChunks minv maxv bitmask input).getD i []).length) :=
  Chunker.run_sound minv maxv bitmask h1 h2 _ _ rfl rfl rfl (by simp [Chunker.new])

/-- Witness for C6 at the default parameters on a three-byte input. -/
theorem chunker_length_invariant_witness :
    (∀ ch ∈ chunkerChunks CHUNKER_SIZE_MIN_DEFAULT CHUNKER_SIZE_MAX_DEFAULT
        CHUNKER_BUZHASH_BITMASK [7, 8, 9],
        1 ≤ ch.length ∧ ch.length ≤ CHUNKER_SIZE_MAX_DEFAULT) ∧
    (∀ i, i + 1 < (chunkerChunks CHUNKER_SIZE_MIN_DEFAULT CHUNKER_SIZE_MAX_DEFAULT
        CHUNKER_BUZHASH_BITMASK [7, 8, 9]).length →
      CHUNKER_SIZE_MIN_DEFAULT ≤ ((chunkerChunks CHUNKER_SIZE_MIN_DEFAULT
        CHUNKER_SIZE_MAX_DEFAULT CHUNKER_BUZHASH_BITMASK [7, 8, 9]).getD i []).length) :=
  chunker_length_invariant CHUNKER_SIZE_MIN_DEFAULT CHUNKER_SIZE_MAX_DEFAULT
    CHUNKER_BUZHASH_BITMASK [7, 8, 9] (by norm_num [CHUNKER_SIZE_MIN_DEFAULT,
      CHUNKER_BUZHASH_BITMASK]) (by norm_num [CHUNKER_SIZE_MIN_DEFAULT,
      CHUNKER_SIZE_MAX_DEFAULT, CHUNKER_BUZHASH_BITMASK])

end Zchunk

namespace Zchunk

/-- C4 counterexample: take `min = 2`, `max = 100`, `bitmask = 0` and fifty
zero bytes of input.  The very first scanned byte — `buf[p]` with
`p = min + 0 = 2` — satisfies `h AND bitmask == 0` (the scan returns index
`0`), yet the chunk emitted is `buf[0 .. p] = [0, 0]` of length `p = 2`,
not `buf[0 .. p+1]` of length `p + 1 = 3`; the byte at position `p` stays
at the head of the retained buffer (48 bytes remain). -/
theorem chunker_boundary_counterexample :
    Chunker.scanLoop 0 (List.replicate 48 0) (List.replicate 48 0) 0
        (Chunker.buzhashInit (List.replicate 48 0)) 0 = some 0 ∧
    (Chunker.new 2 100 0 (List.replicate 50 0)).next =
      some ([0, 0], ⟨2, 100, 0, List.replicate 48 0, []⟩) := by
  constructor <;> rfl

/-- C4 amended: in the chunker, scanning from position `p = MIN`, when the
rolling Buzhash first satisfies `h AND BITMASK == 0` after absorbing byte
`buf[p]` (the scan loop returns enumeration index `i`, `p = MIN + i`), the
chunk emitted for that call is `buf[0 .. p]` — it EXCLUDES the byte at
position `p`, so the emitted chunk has length `p`, and the remaining bytes
`buf[p ..]` (starting with the absorbed byte) are retained for the next
call. -/
theorem chunker_boundary_emits_p_bytes (c : Chunker) (i : Nat)
    (hne : c.fillBuffer.buf.length ≠ 0)
    (hmin : ¬ c.fillBuffer.buf.length < c.fillBuffer.min)
    (hscan : Chunker.scanLoop c.fillBuffer.bitmask
        (c.fillBuffer.buf.drop c.fillBuffer.min)
        (Chunker.firstWindow c.fillBuffer.min c.fillBuffer.buf) 0
        (Chunker.buzhashInit
          (Chunker.firstWindow c.fillBuffer.min c.fillBuffer.buf)) 0 = some i) :
    c.next = some (c.fillBuffer.buf.take (c.fillBuffer.min + i),
        { c.fillBuffer with buf := c.fillBuffer.buf.drop (c.fillBuffer.min + i) }) ∧
    (c.fillBuffer.buf.take (c.fillBuffer.min + i)).length = c.fillBuffer.min + i ∧
    c.fillBuffer.buf.take (c.fillBuffer.min + i) ++
      c.fillBuffer.buf.drop (c.fillBuffer.min + i) = c.fillBuffer.buf := by
  have hb := Chunker.scanLoop_some_bounds _ _ _ _ _ _ _ hscan
  have hlt : c.fillBuffer.min + i < c.fillBuffer.buf.length := by
    have h2 := hb.2
    rw [List.length_drop] at h2
    omega
  refine ⟨?_, ?_, List.take_append_drop _ _⟩
  · rw [Chunker.next]
    rw [if_neg hne, if_neg hmin, hscan]
  · rw [List.length_take]
    omega

/-- Witness for the amended C4 at the concrete chunker of the
counterexample. -/
theorem chunker_boundary_emits_p_bytes_witness :
    (Chunker.new 2 100 0 (List.replicate 50 0)).next =
      some ((Chunker.new 2 100 0 (List.replicate 50 0)).fillBuffer.buf.take
          ((Chunker.new 2 100 0 (List.replicate 50 0)).fillBuffer.min + 0),
        { (Chunker.new 2 100 0 (List.replicate 50 0)).fillBuffer with
            buf := (Chunker.new 2 100 0 (List.replicate 50 0)).fillBuffer.buf.drop
              ((Chunker.new 2 100 0 (List.replicate 50 0)).fillBuffer.min + 0) }) ∧
    ((Chunker.new 2 100 0 (List.replicate 50 0)).fillBuffer.buf.take
        ((Chunker.new 2 100 0 (List.replicate 50 0)).fillBuffer.min + 0)).length =
      (Chunker.new 2 100 0 (List.replicate 50 0)).fillBuffer.min + 0 ∧
    (Chunker.new 2 100 0 (List.replicate 50 0)).fillBuffer.buf.take
        ((Chunker.new 2 100 0 (List.replicate 50 0)).fillBuffer.min + 0) ++
      (Chunker.new 2 100 0 (List.replicate 50 0)).fillBuffer.buf.drop
        ((Chunker.new 2 100 0 (List.replicate 50 0)).fillBuffer.min + 0) =
      (Chunker.new 2 100 0 (List.replicate 50 0)).fillBuffer.buf :=
  chunker_boundary_emits_p_bytes (Chunker.new 2 100 0 (List.replicate 50 0)) 0
    (by decide) (by decide) (by rfl)

end Zchunk

namespace Zchunk

/-- The decoder's byte source (`BufRead + Seek`): an in-memory byte list
with a current position. -/
structure Reader where
  data : List Nat
  pos : Nat
deriving DecidableEq

namespace Reader

/-- `read_exact(n)`: return the next `n` bytes and advance, or fail with an
`UnexpectedEof` I/O error when fewer than `n` bytes remain. -/
def readExact (r : Reader) (n : Nat) : Except ZchunkError (List Nat × Reader) :=
  if r.pos + n ≤ r.data.length then
    .ok ((r.data.drop r.pos).take n, ⟨r.data, r.pos + n⟩)
  else .error (.ioError "failed to fill whole buffer")

/-- `read_variant_int` on the seekable reader: run the generic byte-at-a-time
loop on the bytes from the current position and advance by the number of
bytes the loop consumed. -/
def readVariantInt (r : Reader) : Except ZchunkError (VariantInt × Reader) :=
  match Zchunk.readVariantInt (r.data.drop r.pos) with
  | .ok (v, _) => .ok (v, ⟨r.data, r.pos + v.bytes.length⟩)
  | .error e => .error e

/-- `seek(SeekFrom::Start(p))`. -/
def seekFromStart (r : Reader) (p : Nat) : Reader := ⟨r.data, p⟩

/-- `stream_position()`. -/
def streamPosition (r : Reader) : Nat := r.pos

end Reader

/-- `b"\0ZCK1"`. -/
def ZCHUNK_VERSION_1 : List Nat := [0x00, 0x5a, 0x43, 0x4b, 0x31]

/-- `b"\0ZHR1"`. -/
def ZCHUNK_DETACHED_VERSION_1 : List Nat := [0x00, 0x5a, 0x48, 0x52, 0x31]

def CHECKSUM_SHA1 : Nat := 0
def CHECKSUM_SHA256 : Nat := 1
def CHECKSUM_SHA512 : Nat := 2
def CHECKSUM_SHA512_128 : Nat := 3

def COMPRESSION_NONE : Nat := 0
def COMPRESSION_ZSTD : Nat := 2

/-- `Lead` from `src/format.rs`. -/
structure Lead where
  id : List Nat
  checksum_type : VariantInt
  header_size : VariantInt
  header_checksum : List Nat
deriving DecidableEq

namespace Lead

/-- `Lead::new(header_size)`; `header_size` is a `usize` cast to `u64`. -/
def new (header_size : Nat) : Lead :=
  ⟨ZCHUNK_VERSION_1, VariantInt.fromU64 CHECKSUM_SHA256,
    VariantInt.fromU64 (header_size % 2 ^ 64), List.replicate 32 0⟩

/-- `Lead::write_to`: when `ignore_checksum` is set the 32-byte
`header_checksum` field is NOT written at all. -/
def write_to (l : Lead) (ignore_checksum : Bool) : List Nat :=
  l.id ++ l.checksum_type.write_to ++ l.header_size.write_to ++
    (if ignore_checksum then [] else l.header_checksum)

/-- `Lead::byte_size`. -/
def byte_size (l : Lead) : Nat :=
  l.id.length + l.checksum_type.byte_size + l.header_size.byte_size +
    l.header_checksum.length

/-- `Lead::from_reader`. -/
def from_reader (r : Reader) : Except ZchunkError (Lead × Reader) :=
  match r.readExact 5 with
  | .error e => .error e
  | .ok (id, r) =>
    if id ≠ ZCHUNK_VERSION_1 ∧ id ≠ ZCHUNK_DETACHED_VERSION_1 then
      .error (.invalidLeaderID id)
    else
      match r.readVariantInt with
      | .error e => .error e
      | .ok (checksum_type, r) =>
        match checksum_type.toU64 with
        | .error e => .error e
        | .ok ctv =>
          if ctv % 256 = CHECKSUM_SHA1 ∨ ctv % 256 = CHECKSUM_SHA256 then
            match r.readVariantInt with
            | .error e => .error e
            | .ok (header_size, r) =>
              match r.readExact 32 with
              | .error e => .error e
              | .ok (header_checksum, r) =>
                .ok (⟨id, checksum_type, header_size, header_checksum⟩, r)
          else .error (.invalidChecksumType (ctv % 256))

end Lead

/-- `PrefaceFlags`. -/
structure PrefaceFlags where
  vint : VariantInt
  uint : Nat
deriving DecidableEq

namespace PrefaceFlags

def from_variant_int (n : VariantInt) : Except ZchunkError PrefaceFlags :=
  match n.toU64 with
  | .error e => .error e
  | .ok uint => .ok ⟨n, uint⟩

def from_u64 (n : Nat) : PrefaceFlags := ⟨VariantInt.fromU64 n, n⟩

def write_to (f : PrefaceFlags) : List Nat := f.vint.write_to

def byte_size (f : PrefaceFlags) : Nat := f.vint.byte_size

def has_stream (f : PrefaceFlags) : Bool := (f.uint &&& 0x01) != 0

def has_optional (f : PrefaceFlags) : Bool := (f.uint &&& 0x02) != 0

end PrefaceFlags

/-- `Preface` from `src/format.rs`. -/
structure Preface where
  data_checksum : List Nat
  flags : PrefaceFlags
  compression_type : VariantInt
  optional_element_count : Option VariantInt
deriving DecidableEq

namespace Preface

/-- `Preface::new(data_checksum)`. -/
def new (data_checksum : List Nat) : Preface :=
  ⟨data_checksum, PrefaceFlags.from_u64 0, VariantInt.fromU64 COMPRESSION_ZSTD, none⟩

def write_to (p : Preface) : List Nat :=
  p.data_checksum ++ p.flags.write_to ++ p.compression_type.write_to ++
    (match p.optional_element_count with
     | some count => count.write_to
     | none => [])

def byte_size (p : Preface) : Nat :=
  p.data_checksum.length + p.flags.byte_size + p.compression_type.byte_size +
    (match p.optional_element_count with
     | some count => count.byte_size
     | none => 0)

def from_reader (r : Reader) : Except ZchunkError (Preface × Reader) :=
  match r.readExact 32 with
  | .error e => .error e
  | .ok (data_checksum, r) =>
    match r.readVariantInt with
    | .error e => .error e
    | .ok (fv, r) =>
      match PrefaceFlags.from_variant_int fv with
      | .error e => .error e
      | .ok flags =>
        match r.readVariantInt with
        | .error e => .error e
        | .ok (compression_type, r) =>
          match compression_type.toU64 with
          | .error e => .error e
          | .ok ctv =>
            if ctv % 256 ≠ COMPRESSION_NONE ∧ ctv % 256 ≠ COMPRESSION_ZSTD then
              .error (.invalidCompressionType (ctv % 256))
            else
              if flags.has_optional then
                match r.readVariantInt with
                | .error e => .error e
                | .ok (count, r) =>
                  .ok (⟨data_checksum, flags, compression_type, some count⟩, r)
              else .ok (⟨data_checksum, flags, compression_type, none⟩, r)

end Preface

/-- `Chunk` from `src/format.rs`. -/
structure Chunk where
  stream : Option VariantInt
  checksum : List Nat
  length : VariantInt
  uncompressed_length : VariantInt
deriving DecidableEq

namespace Chunk

/-- `Chunk::new(checksum, length, uncompressed_length)`; the two integer
arguments are `u32`s, converted losslessly to `u64`. -/
def new (checksum : List Nat) (length uncompressed_length : Nat) : Chunk :=
  ⟨none, checksum, VariantInt.fromU64 length, VariantInt.fromU64 uncompressed_length⟩

def write_to (c : Chunk) : List Nat :=
  (match c.stream with
   | some s => s.write_to
   | none => []) ++ c.checksum ++ c.length.write_to ++ c.uncompressed_length.write_to

def byte_size (c : Chunk) : Nat :=
  c.checksum.length + c.length.byte_size + c.uncompressed_length.byte_size +
    (match c.stream with
     | some s => s.byte_size
     | none => 0)

def from_reader (r : Reader) (flags : PrefaceFlags) :
    Except ZchunkError (Chunk × Reader) :=
  match (if flags.has_stream then
           match r.readVariantInt with
           | .error e => .error e
           | .ok (s, r) => .ok (some s, r)
         else .ok (none, r) : Except ZchunkError (Option VariantInt × Reader)) with
  | .error e => .error e
  | .ok (stream, r) =>
    match r.readExact 16 with
    | .error e => .error e
    | .ok (checksum, r) =>
      match r.readVariantInt with
      | .error e => .error e
      | .ok (length, r) =>
        match r.readVariantInt with
        | .error e => .error e
        | .ok (uncompressed_length, r) =>
          .ok (⟨stream, checksum, length, uncompressed_length⟩, r)

/-- The `PartialEq` implementation for `Chunk`: equality on
`(checksum, length, uncompressed_length)`, ignoring `stream`. -/
def eqc (a b : Chunk) : Bool :=
  a.checksum == b.checksum && a.length == b.length &&
    a.uncompressed_length == b.uncompressed_length

end Chunk

/-- `Signature` from `src/format.rs`. -/
structure Signature where
  type_ : VariantInt
  size : VariantInt
  signature : List Nat
deriving DecidableEq

namespace Signature

def write_to (s : Signature) : List Nat :=
  s.type_.write_to ++ s.size.write_to ++ s.signature

def byte_size (s : Signature) : Nat :=
  s.type_.byte_size + s.size.byte_size + s.signature.length

def from_reader (r : Reader) : Except ZchunkError (Signature × Reader) :=
  match r.readVariantInt with
  | .error e => .error e
  | .ok (type_, r) =>
    match r.readVariantInt with
    | .error e => .error e
    | .ok (size, r) =>
      match size.toU64 with
      | .error e => .error e
      | .ok sz =>
        match r.readExact sz with
        | .error e => .error e
        | .ok (signature, r) => .ok (⟨type_, size, signature⟩, r)

end Signature

/-- `Signatures` from `src/format.rs`. -/
structure Signatures where
  count : VariantInt
  signatures : List Signature
deriving DecidableEq

namespace Signatures

/-- `Signatures::new`; the length is a `usize` cast to `u64`. -/
def new (signatures : List Signature) : Signatures :=
  ⟨VariantInt.fromU64 (signatures.length % 2 ^ 64), signatures⟩

def write_to (s : Signatures) : List Nat :=
  s.count.write_to ++ (s.signatures.map Signature.write_to).flatten

def byte_size (s : Signatures) : Nat :=
  s.count.byte_size + (s.signatures.map Signature.byte_size).sum

/-- The read loop of `Signatures::from_reader`, iterated `count` times. -/
def fromReaderLoop : Nat → Reader → Except ZchunkError (List Signature × Reader)
  | 0, r => .ok ([], r)
  | n + 1, r =>
    match Signature.from_reader r with
    | .error e => .error e
    | .ok (sig, r) =>
      match fromReaderLoop n r with
      | .error e => .error e
      | .ok (sigs, r2) => .ok (sig :: sigs, r2)

def from_reader (r : Reader) : Except ZchunkError (Signatures × Reader) :=
  match r.readVariantInt with
  | .error e => .error e
  | .ok (count, r) =>
    match count.toU64 with
    | .error e => .error e
    | .ok cnt =>
      match fromReaderLoop cnt r with
      | .error e => .error e
      | .ok (signatures, r2) => .ok (⟨count, signatures⟩, r2)

end Signatures

end Zchunk

namespace Zchunk

/-- `Index` from `src/format.rs`.  `data_chunks` pairs each chunk with its
`ChunkOffset`, which is a `u32` (hence the `% 2 ^ 32` in every offset
computation below). -/
structure Index where
  size : VariantInt
  checksum_type : VariantInt
  chunks_count : VariantInt
  dict_chunk : Chunk
  data_chunks : List (Chunk × Nat)
deriving DecidableEq

namespace Index

/-- The offset-accumulation loop of `Index::new`: push `(c, chunk_offset)`
and advance `chunk_offset` by the chunk's length cast to `u32`, in
wrapping 32-bit arithmetic. -/
def newLoop : List Chunk → Nat → Except ZchunkError (List (Chunk × Nat))
  | [], _ => .ok []
  | c :: cs, off => do
    let l ← c.length.toU64
    let rest ← newLoop cs ((off + l % 2 ^ 32) % 2 ^ 32)
    .ok ((c, off) :: rest)

/-- `Index::new(chunks)`. -/
def new (chunks : List Chunk) : Except ZchunkError Index := do
  let dict_chunk := Chunk.new (List.replicate 16 0) 0 0
  let checksum_type := VariantInt.fromU64 CHECKSUM_SHA512_128
  let chunks_count := VariantInt.fromU64 ((chunks.length % 2 ^ 64 + 1) % 2 ^ 64)
  let size := checksum_type.byte_size + chunks_count.byte_size +
    dict_chunk.byte_size + (chunks.map Chunk.byte_size).sum
  let dl ← dict_chunk.length.toU64
  let data_chunks ← newLoop chunks (dl % 2 ^ 32)
  .ok ⟨VariantInt.fromU64 (size % 2 ^ 64), checksum_type, chunks_count,
    dict_chunk, data_chunks⟩

def write_to (x : Index) : List Nat :=
  x.size.write_to ++ x.checksum_type.write_to ++ x.chunks_count.write_to ++
    x.dict_chunk.write_to ++ (x.data_chunks.map (fun p => p.1.write_to)).flatten

def byte_size (x : Index) : Nat :=
  x.checksum_type.byte_size + x.chunks_count.byte_size + x.dict_chunk.byte_size +
    (x.data_chunks.map (fun p => p.1.byte_size)).sum + x.size.byte_size

/-- The chunk-reading loop of `Index::from_reader`, with the same wrapping
32-bit offset accumulation as `Index::new`. -/
def fromReaderLoop (flags : PrefaceFlags) :
    Nat → Reader → Nat → Except ZchunkError (List (Chunk × Nat) × Reader)
  | 0, r, _ => .ok ([], r)
  | n + 1, r, off =>
    match Chunk.from_reader r flags with
    | .error e => .error e
    | .ok (chunk, r) =>
      match chunk.length.toU64 with
      | .error e => .error e
      | .ok l =>
        match fromReaderLoop flags n r ((off + l % 2 ^ 32) % 2 ^ 32) with
        | .error e => .error e
        | .ok (rest, r2) => .ok ((chunk, off) :: rest, r2)

/-- `Index::from_reader`.  The loop count `chunks_count.to_u64()? - 1` is a
wrapping `u64` subtraction. -/
def from_reader (r : Reader) (flags : PrefaceFlags) :
    Except ZchunkError (Index × Reader) := do
  let (size, r) ← r.readVariantInt
  let (checksum_type, r) ← r.readVariantInt
  let ctv ← checksum_type.toU64
  if ctv % 256 = CHECKSUM_SHA1 ∨ ctv % 256 = CHECKSUM_SHA256 ∨
      ctv % 256 = CHECKSUM_SHA512 ∨ ctv % 256 = CHECKSUM_SHA512_128 then
    let (chunks_count, r) ← r.readVariantInt
    let (dict_chunk, r) ← Chunk.from_reader r flags
    let dl ← dict_chunk.length.toU64
    let cnt ← chunks_count.toU64
    let (data_chunks, r2) ←
      Index.fromReaderLoop flags ((cnt + 2 ^ 64 - 1) % 2 ^ 64) r (dl % 2 ^ 32)
    let expect_index_size := (checksum_type.byte_size + chunks_count.byte_size +
      dict_chunk.byte_size + (data_chunks.map (fun p => p.1.byte_size)).sum) % 2 ^ 64
    let index_size ← size.toU64
    if expect_index_size ≠ index_size then
      .error (.invalidIndexSize expect_index_size index_size)
    else
      .ok (⟨size, checksum_type, chunks_count, dict_chunk, data_chunks⟩, r2)
  else .error (.invalidChecksumType (ctv % 256))

end Index

/-- `Header` from `src/format.rs`. -/
structure Header where
  lead : Lead
  preface : Preface
  index : Index
  signatures : Signatures
deriving DecidableEq

namespace Header

def new (lead : Lead) (preface : Preface) (index : Index)
    (signatures : Signatures) : Header :=
  ⟨lead, preface, index, signatures⟩

def write_to (h : Header) (ignore_checksum : Bool) : List Nat :=
  h.lead.write_to ignore_checksum ++ h.preface.write_to ++ h.index.write_to ++
    h.signatures.write_to

/-- `Header::compute_and_set_checksum`: serialize the header with the
checksum field omitted (`ignore_checksum = true`), hash the bytes with the
ambient SHA-256 (passed as a parameter), and store the 32-byte digest into
the lead.  The `header_size.to_u64()?` call (used only as a capacity hint)
and the `[u8; 32]` conversion of the digest can both fail. -/
def compute_and_set_checksum (sha256 : List Nat → List Nat) (h : Header) :
    Except ZchunkError Header :=
  match h.lead.header_size.toU64 with
  | .error e => .error e
  | .ok _ =>
    let writer := h.write_to true
    let result := sha256 writer
    if result.length = 32 then
      .ok { h with lead := { h.lead with header_checksum := result } }
    else .error .tryFromSlice

/-- `Header::has_dict_chunk`, using the `PartialEq` of `Chunk`. -/
def has_dict_chunk (h : Header) (c : Chunk) : Bool :=
  Chunk.eqc h.index.dict_chunk c

/-- `Header::find_data_chunks`: the entries of `data_chunks` whose chunk
occurs (by `Chunk` equality) in `chunks`, collected into a map. -/
def find_data_chunks (h : Header) (chunks : List Chunk) : List (Chunk × Nat) :=
  h.index.data_chunks.filter (fun p => chunks.any (fun c => Chunk.eqc c p.1))

end Header

/-- Lookup in the `HashMap<Chunk, ChunkOffset>` built by
`find_data_chunks`: the entry equal (by the `PartialEq` of `Chunk`) to the
key, with later insertions overriding earlier ones. -/
def mapGet (m : List (Chunk × Nat)) (k : Chunk) : Option Nat :=
  match m.reverse.find? (fun p => Chunk.eqc p.1 k) with
  | some p => some p.2
  | none => none

end Zchunk

namespace Zchunk

/-- The encoder's state: optional prepared header plus the temp spool of
compressed chunk bytes (`temp` is the in-memory model of the
`Read + Write + Seek` temp store). -/
structure EncoderState where
  header : Option Header
  temp : List Nat
deriving DecidableEq

namespace Encoder

/-- The chunking/compression loop of `Encoder::prepare_chunks`: for each
chunk from the chunker, compress it, record a `Chunk` entry whose checksum
is the first 16 bytes of the SHA-512 of the compressed bytes and whose
lengths are the `usize` lengths cast to `u32`, and append the compressed
bytes to the temp spool.  The bytes fed to the running SHA-256
(`total_hasher`) are exactly the spool contents, so the function returns
the spool and the chunk list. -/
def prepareLoop (sha512 compress : List Nat → List Nat) :
    Nat → Chunker → List Nat × List Chunk
  | 0, _ => ([], [])
  | fuel + 1, c =>
    match c.next with
    | none => ([], [])
    | some (uncompressed_chunk_data, c2) =>
      let compressed_chunk_data := compress uncompressed_chunk_data
      let chunk := Chunk.new ((sha512 compressed_chunk_data).take 16)
        (compressed_chunk_data.length % 2 ^ 32)
        (uncompressed_chunk_data.length % 2 ^ 32)
      let rest := prepareLoop sha512 compress fuel c2
      (compressed_chunk_data ++ rest.1, chunk :: rest.2)

/-- `Encoder::prepare_chunks` over a source reader holding `input`:
run the default chunker to exhaustion, then build Signatures (empty),
Index, Preface (whose `[u8; 32]` conversion of the SHA-256 digest can
fail), Lead, and the checksummed header. -/
def prepare_chunks (sha256 sha512 compress : List Nat → List Nat)
    (input : List Nat) : Except ZchunkError EncoderState :=
  let r := prepareLoop sha512 compress (input.length + 1) (Chunker.defaultNew input)
  let temp := r.1
  let chunks := r.2
  let data_checksum := sha256 temp
  let signatures := Signatures.new []
  match Index.new chunks with
  | .error e => .error e
  | .ok index =>
    if data_checksum.length = 32 then
      let preface := Preface.new data_checksum
      let header_size := signatures.byte_size + index.byte_size + preface.byte_size
      let lead := Lead.new header_size
      match Header.compute_and_set_checksum sha256
          (Header.new lead preface index signatures) with
      | .error e => .error e
      | .ok header => .ok ⟨some header, temp⟩
    else .error .tryFromSlice

/-- `Encoder::compress_to`: write the header then replay the temp spool. -/
def compress_to (e : EncoderState) : Except ZchunkError (List Nat) :=
  match e.header with
  | none => .error .headerNotFound
  | some header => .ok (header.write_to false ++ e.temp)

/-- `prepare_chunks` followed by `compress_to`: the full encode pipeline. -/
def encode (sha256 sha512 compress : List Nat → List Nat) (input : List Nat) :
    Except ZchunkError (List Nat) :=
  match prepare_chunks sha256 sha512 compress input with
  | .error e => .error e
  | .ok st => compress_to st

end Encoder

/-- `Decoder` from `src/format.rs`. -/
structure Decoder where
  header : Header
  header_size : Nat
  reader : Reader
deriving DecidableEq

namespace Decoder

/-- `Decoder::new`: parse Lead, Preface, Index, Signatures in order and
check that the reader's position equals `lead.byte_size + header_size`. -/
def new (r0 : Reader) : Except ZchunkError Decoder := do
  let (lead, r1) ← Lead.from_reader r0
  let (preface, r2) ← Preface.from_reader r1
  let (index, r3) ← Index.from_reader r2 preface.flags
  let (signatures, r4) ← Signatures.from_reader r3
  let hs ← lead.header_size.toU64
  let expect_header_size := (hs + lead.byte_size) % 2 ^ 64
  let header_size := r4.streamPosition
  if expect_header_size ≠ header_size then
    .error (.invalidHeaderSize expect_header_size header_size)
  else .ok ⟨Header.new lead preface index signatures, header_size, r4⟩

/-- `Decoder::get_chunk_data(offset, chunk)`: zero-length chunks
short-circuit to an empty buffer before any seek; otherwise seek to
`header_size + offset`, read `length` bytes, dispatch on the index's
checksum type (SHA-256 / SHA-512 / SHA-512-128; anything else is an
invalid-checksum-type error), truncate the digest to 16 bytes, and fail
with a chunk-checksum mismatch when it differs from the stored checksum. -/
def get_chunk_data (sha256 sha512 : List Nat → List Nat) (d : Decoder)
    (offset : Nat) (chunk : Chunk) : Except ZchunkError (List Nat × Decoder) := do
  let length ← chunk.length.toU64
  if length = 0 then
    .ok ([], d)
  else
    let r := d.reader.seekFromStart ((d.header_size + offset) % 2 ^ 64)
    let (buf, r2) ← r.readExact length
    let ct ← d.header.index.checksum_type.toU64
    let result ← (if ct % 256 = CHECKSUM_SHA256 then
        .ok ((sha256 buf).take 16)
      else if ct % 256 = CHECKSUM_SHA512 ∨ ct % 256 = CHECKSUM_SHA512_128 then
        .ok ((sha512 buf).take 16)
      else .error (.invalidChecksumType (ct % 256)) :
        Except ZchunkError (List Nat))
    if chunk.checksum ≠ result then
      .error (.chunkChecksumNotMatch length chunk.checksum result)
    else .ok (buf, { d with reader := r2 })

/-- `Decoder::get_uncompressed_dict`: fetch the dict chunk at offset 0 and,
when non-empty, decompress it (without dictionary) to obtain the zstd
dictionary. -/
def get_uncompressed_dict (sha256 sha512 : List Nat → List Nat)
    (decompress : List Nat → Except ZchunkError (List Nat)) (d : Decoder) :
    Except ZchunkError (Option (List Nat) × Decoder) := do
  let dict_chunk := d.header.index.dict_chunk
  let (data, d2) ← d.get_chunk_data sha256 sha512 0 dict_chunk
  if data.length ≠ 0 then
    let dict ← decompress data
    .ok (some dict, d2)
  else .ok (none, d2)

/-- The per-data-chunk loop of `Decoder::decompress_to`: take the next
`length` bytes from the reader's current position (`reader.take(length)`)
and decompress them — with the dictionary when one is present — appending
the output.  NOTE: no checksum verification happens here; decompression
consumes the whole `length`-byte window (zstd reads its full frame). -/
def decompressLoop (decompress : List Nat → Except ZchunkError (List Nat))
    (decompressD : List Nat → List Nat → Except ZchunkError (List Nat))
    (dict : Option (List Nat)) :
    List (Chunk × Nat) → Reader → Except ZchunkError (List Nat × Reader)
  | [], r => .ok ([], r)
  | (chunk, _) :: rest, r => do
    let length ← chunk.length.toU64
    let input := (r.data.drop r.pos).take length
    let r2 : Reader := ⟨r.data, min (r.pos + length) r.data.length⟩
    let out ← (match dict with
      | some dctx => decompressD input dctx
      | none => decompress input)
    let (outRest, r3) ← decompressLoop decompress decompressD dict rest r2
    .ok (out ++ outRest, r3)

/-- `Decoder::decompress_to`: fetch (and checksum-verify) the dict chunk,
then stream-decompress every data chunk in index order from the current
reader position. -/
def decompress_to (sha256 sha512 : List Nat → List Nat)
    (decompress : List Nat → Except ZchunkError (List Nat))
    (decompressD : List Nat → List Nat → Except ZchunkError (List Nat))
    (d : Decoder) : Except ZchunkError (List Nat × Decoder) := do
  let (dict, d2) ← get_uncompressed_dict sha256 sha512 decompress d
  let (out, r) ← decompressLoop decompress decompressD dict
    d2.header.index.data_chunks d2.reader
  .ok (out, { d2 with reader := r })

/-- The per-chunk loop of `Decoder::sync_to`: fetch each source data chunk
from the cache when the fingerprint map has it, else from the source at the
chunk's own index offset. -/
def syncLoop (sha256 sha512 : List Nat → List Nat) (m : List (Chunk × Nat)) :
    List (Chunk × Nat) → Decoder → Decoder →
    Except ZchunkError (List Nat × Decoder × Decoder)
  | [], d, cache => .ok ([], d, cache)
  | (chunk, offset) :: rest, d, cache =>
    match mapGet m chunk with
    | some o =>
      match cache.get_chunk_data sha256 sha512 o chunk with
      | .error e => .error e
      | .ok (data, cache2) =>
        match syncLoop sha256 sha512 m rest d cache2 with
        | .error e => .error e
        | .ok (out, d2, c3) => .ok (data ++ out, d2, c3)
    | none =>
      match d.get_chunk_data sha256 sha512 offset chunk with
      | .error e => .error e
      | .ok (data, d2) =>
        match syncLoop sha256 sha512 m rest d2 cache with
        | .error e => .error e
        | .ok (out, d3, c3) => .ok (data ++ out, d3, c3)

/-- `Decoder::sync_to(cache)`: write the source header, then the dict chunk
(from the cache when its dict chunk equals the source's), then every data
chunk, reusing cache chunks found by `find_data_chunks`. -/
def sync_to (sha256 sha512 : List Nat → List Nat) (d cache : Decoder) :
    Except ZchunkError (List Nat) := do
  let headerBytes := d.header.write_to false
  let dict_chunk := d.header.index.dict_chunk
  let (dict, d1, cache1) ← (if cache.header.has_dict_chunk dict_chunk then do
      let (data, cache2) ← cache.get_chunk_data sha256 sha512 0 dict_chunk
      .ok (data, d, cache2)
    else do
      let (data, d2) ← d.get_chunk_data sha256 sha512 0 dict_chunk
      .ok (data, d2, cache) :
    Except ZchunkError (List Nat × Decoder × Decoder))
  let m := cache1.header.find_data_chunks
    (d1.header.index.data_chunks.map (fun p => p.1))
  let (out, _, _) ← syncLoop sha256 sha512 m d1.header.index.data_chunks d1 cache1
  .ok (headerBytes ++ dict ++ out)

end Decoder

end Zchunk

namespace Zchunk

namespace VariantInt

theorem mod256_and_0x7f (n : Nat) : (n % 256) &&& 0x7f = n % 128 := by
  rw [and_0x7f_eq_mod, Nat.mod_mod_of_dvd _ (by norm_num)]

end VariantInt

theorem readVariantIntLoop_encode (n : Nat) :
    ∀ acc rest, readVariantIntLoop (VariantInt.fromU64Loop n ++ rest) acc =
      .ok (⟨acc ++ VariantInt.fromU64Loop n⟩, rest) := by
  induction n using Nat.strong_induction_on with
  | _ n ih =>
    intro acc rest
    by_cases hc : n ≥ 0x80
    · rw [VariantInt.fromU64Loop_big n hc, VariantInt.mod256_and_0x7f]
      have hmod : n % 128 < 128 := Nat.mod_lt _ (by norm_num)
      rw [List.cons_append, readVariantIntLoop,
        if_neg (by simpa using VariantInt.lt_128_and_0x80 _ hmod)]
      rw [ih (n >>> 7)
        (by rw [Nat.shiftRight_eq_div_pow]
            exact Nat.div_lt_self (by omega) (by norm_num)) (acc ++ [n % 128]) rest]
      simp
    · rw [VariantInt.fromU64Loop_small n (by omega),
        Nat.mod_eq_of_lt (show n < 256 by omega), List.cons_append,
        readVariantIntLoop,
        if_pos (by rw [VariantInt.lt_128_lor_0x80_and_0x80 n (by omega)]; norm_num)]
      simp

theorem readVariantIntLoop_append (src : List Nat) :
    ∀ acc v rest, readVariantIntLoop src acc = .ok (v, rest) →
      acc ++ src = v.bytes ++ rest := by
  induction src with
  | nil => intro acc v rest h; simp [readVariantIntLoop] at h
  | cons b r ih =>
    intro acc v rest h
    rw [readVariantIntLoop] at h
    by_cases hb : b &&& 0x80 ≠ 0
    · rw [if_pos hb] at h
      cases h
      simp
    · rw [if_neg hb] at h
      have := ih (acc ++ [b]) v rest h
      simpa using this

/-- Relation between a reader before and after a parse that consumed the
given bytes. -/
def ParsesTo (r : Reader) (consumed : List Nat) (r2 : Reader) : Prop :=
  r2 = ⟨r.data, r.pos + consumed.length⟩ ∧
  r.pos + consumed.length ≤ r.data.length ∧
  (r.data.drop r.pos).take consumed.length = consumed

theorem ParsesTo.comp {r : Reader} {a : List Nat} {r2 : Reader} {b : List Nat}
    {r3 : Reader} (h1 : ParsesTo r a r2) (h2 : ParsesTo r2 b r3) :
    ParsesTo r (a ++ b) r3 := by
  obtain ⟨e1, hb1, ht1⟩ := h1
  obtain ⟨e2, hb2, ht2⟩ := h2
  subst e1
  simp only at hb2 ht2
  refine ⟨?_, ?_, ?_⟩
  · rw [e2]
    simp [List.length_append]
    omega
  · simp only [List.length_append]
    omega
  · rw [List.length_append, List.take_add, ht1]
    congr 1
    rw [List.drop_drop]
    exact ht2

theorem parsesTo_readExact {r : Reader} {n : Nat} {bs : List Nat} {r2 : Reader}
    (h : r.readExact n = .ok (bs, r2)) : ParsesTo r bs r2 ∧ bs.length = n := by
  rw [Reader.readExact] at h
  split at h
  · next hle =>
    cases h
    have hlen : ((r.data.drop r.pos).take n).length = n := by
      rw [List.length_take, List.length_drop]
      omega
    exact ⟨⟨by rw [hlen], by rw [hlen]; omega, by rw [hlen]⟩, hlen⟩
  · cases h

theorem parsesTo_readVariantInt {r : Reader} {v : VariantInt} {r2 : Reader}
    (h : r.readVariantInt = .ok (v, r2)) : ParsesTo r v.bytes r2 := by
  rw [Reader.readVariantInt] at h
  cases hl : Zchunk.readVariantInt (r.data.drop r.pos) with
  | error e => rw [hl] at h; cases h
  | ok p =>
    obtain ⟨v0, rest0⟩ := p
    rw [hl] at h
    rw [Except.ok.injEq, Prod.mk.injEq] at h
    obtain ⟨hv, hr⟩ := h
    subst hv
    subst hr
    have happ := readVariantIntLoop_append _ _ _ _ hl
    simp only [List.nil_append] at happ
    have hlen : 1 ≤ v0.bytes.length := by
      simpa using readVariantIntLoop_ok_length _ _ _ _ hl
    have hdlen : r.data.length - r.pos = v0.bytes.length + rest0.length := by
      have := congrArg List.length happ
      simpa [List.length_drop] using this
    refine ⟨rfl, by omega, ?_⟩
    rw [happ]
    exact List.take_left' rfl

theorem reader_readVariantInt_encode (r : Reader) (n : Nat) (rest : List Nat)
    (h : r.data.drop r.pos = VariantInt.fromU64Loop n ++ rest) :
    r.readVariantInt = .ok (VariantInt.fromU64 n,
      ⟨r.data, r.pos + (VariantInt.fromU64Loop n).length⟩) := by
  rw [Reader.readVariantInt]
  rw [show Zchunk.readVariantInt (r.data.drop r.pos) =
    .ok (VariantInt.fromU64 n, rest) from by
      rw [h, Zchunk.readVariantInt, readVariantIntLoop_encode n [] rest]
      rfl]
  rfl

end Zchunk

namespace Zchunk

theorem drop_add_append (data : List Nat) (pos : Nat) (a b : List Nat)
    (h : data.drop pos = a ++ b) : data.drop (pos + a.length) = b := by
  rw [← List.drop_drop, h, List.drop_left]

theorem pos_le_of_drop_append (data : List Nat) (pos : Nat) (a b : List Nat)
    (hne : a.length ≠ 0)
    (h : data.drop pos = a ++ b) : pos + a.length + b.length ≤ data.length := by
  have hl := congrArg List.length h
  simp only [List.length_drop, List.length_append] at hl
  by_cases hp : pos ≤ data.length
  · omega
  · rw [List.drop_eq_nil_of_le (by omega)] at h
    have := congrArg List.length h
    simp only [List.length_nil, List.length_append] at this
    omega

theorem readExact_of_append (r : Reader) (bs rest : List Nat)
    (hne : bs.length ≠ 0)
    (hdata : r.data.drop r.pos = bs ++ rest) :
    r.readExact bs.length = .ok (bs, ⟨r.data, r.pos + bs.length⟩) := by
  have hb := pos_le_of_drop_append _ _ _ _ hne hdata
  rw [Reader.readExact, if_pos (by omega), hdata, List.take_left]

theorem VariantInt.vint_write_length (v : VariantInt) :
    v.write_to.length = v.byte_size := rfl

theorem Lead.lead_write_length (l : Lead) :
    (l.write_to false).length = l.byte_size := by
  simp only [Lead.write_to, Lead.byte_size, VariantInt.write_to,
    VariantInt.byte_size, if_neg (by simp : ¬ (false = true)),
    List.length_append]

/-- Parsing the serialization of a well-formed `Lead` (full-file magic,
canonically encoded fields, an accepted header checksum type, 32 checksum
bytes) returns the lead unchanged and consumes exactly its bytes. -/
theorem Lead.lead_parse_encode (r : Reader) (l : Lead) (rest : List Nat)
    (hdata : r.data.drop r.pos = l.write_to false ++ rest)
    (hid : l.id = ZCHUNK_VERSION_1)
    (hct : ∃ n, n < 2 ^ 64 ∧ l.checksum_type = VariantInt.fromU64 n ∧
      (n % 256 = CHECKSUM_SHA1 ∨ n % 256 = CHECKSUM_SHA256))
    (hhs : ∃ m, m < 2 ^ 64 ∧ l.header_size = VariantInt.fromU64 m)
    (hcs : l.header_checksum.length = 32) :
    Lead.from_reader r = .ok (l, ⟨r.data, r.pos + (l.write_to false).length⟩) := by
  obtain ⟨n, hn, hctv, hacc⟩ := hct
  obtain ⟨m, hm, hhsv⟩ := hhs
  have hflat : r.data.drop r.pos =
      l.id ++ (l.checksum_type.bytes ++ (l.header_size.bytes ++
        (l.header_checksum ++ rest))) := by
    rw [hdata]
    simp [Lead.write_to, VariantInt.write_to]
  have hidlen : l.id.length = 5 := by rw [hid]; rfl
  have h1 : r.readExact 5 = .ok (l.id, ⟨r.data, r.pos + 5⟩) := by
    have := readExact_of_append r l.id
      (l.checksum_type.bytes ++ (l.header_size.bytes ++ (l.header_checksum ++ rest)))
      (by omega) hflat
    rw [hidlen] at this
    exact this
  have hd1 : r.data.drop (r.pos + 5) =
      l.checksum_type.bytes ++ (l.header_size.bytes ++ (l.header_checksum ++ rest)) := by
    have := drop_add_append _ _ _ _ hflat
    rw [hidlen] at this
    exact this
  have h2 : (Reader.mk r.data (r.pos + 5)).readVariantInt =
      .ok (VariantInt.fromU64 n,
        ⟨r.data, r.pos + 5 + (VariantInt.fromU64Loop n).length⟩) := by
    apply reader_readVariantInt_encode
    simpa [hctv, VariantInt.fromU64] using hd1
  have hd2 : r.data.drop (r.pos + 5 + (VariantInt.fromU64Loop n).length) =
      l.header_size.bytes ++ (l.header_checksum ++ rest) := by
    have := drop_add_append _ _ _ _ hd1
    rw [hctv] at this
    simpa [VariantInt.fromU64] using this
  have h3 : (Reader.mk r.data
      (r.pos + 5 + (VariantInt.fromU64Loop n).length)).readVariantInt =
      .ok (VariantInt.fromU64 m,
        ⟨r.data, r.pos + 5 + (VariantInt.fromU64Loop n).length +
          (VariantInt.fromU64Loop m).length⟩) := by
    apply reader_readVariantInt_encode
    simpa [hhsv, VariantInt.fromU64] using hd2
  have hd3 : r.data.drop (r.pos + 5 + (VariantInt.fromU64Loop n).length +
      (VariantInt.fromU64Loop m).length) = l.header_checksum ++ rest := by
    have := drop_add_append _ _ _ _ hd2
    rw [hhsv] at this
    simpa [VariantInt.fromU64] using this
  have h4 : (Reader.mk r.data (r.pos + 5 + (VariantInt.fromU64Loop n).length +
      (VariantInt.fromU64Loop m).length)).readExact 32 =
      .ok (l.header_checksum, ⟨r.data, r.pos + 5 + (VariantInt.fromU64Loop n).length +
        (VariantInt.fromU64Loop m).length + 32⟩) := by
    have := readExact_of_append (Reader.mk r.data (r.pos + 5 +
      (VariantInt.fromU64Loop n).length + (VariantInt.fromU64Loop m).length))
      l.header_checksum rest (by omega) hd3
    rw [hcs] at this
    exact this
  rw [Lead.from_reader]
  simp only [h1]
  rw [if_neg (by simp [hid, ZCHUNK_VERSION_1])]
  simp only [h2, VariantInt.toU64_fromU64 n hn]
  rw [if_pos hacc]
  simp only [h3, h4]
  rw [← hctv, ← hhsv]
  rw [Except.ok.injEq, Prod.mk.injEq]
  refine ⟨rfl, ?_⟩
  rw [Reader.mk.injEq]
  refine ⟨rfl, ?_⟩
  have hwl : (l.write_to false).length =
      5 + (VariantInt.fromU64Loop n).length + (VariantInt.fromU64Loop m).length + 32 := by
    simp only [Lead.write_to, VariantInt.write_to, List.length_append, hidlen, hcs,
      hctv, hhsv, VariantInt.fromU64, if_neg (by simp : ¬ (false = true))]
  omega

end Zchunk

namespace Zchunk

theorem Preface.preface_write_length (p : Preface) :
    p.write_to.length = p.byte_size := by
  cases p with
  | mk dc fl ct oc =>
    cases oc <;>
      simp [Preface.write_to, Preface.byte_size, PrefaceFlags.write_to,
        PrefaceFlags.byte_size, VariantInt.write_to, VariantInt.byte_size] <;>
      omega

theorem Chunk.chunk_write_length (c : Chunk) :
    c.write_to.length = c.byte_size := by
  cases c with
  | mk st cs l ul =>
    cases st <;>
      simp [Chunk.write_to, Chunk.byte_size, VariantInt.write_to,
        VariantInt.byte_size] <;>
      omega

theorem Signature.signature_write_length (s : Signature) :
    s.write_to.length = s.byte_size := by
  simp [Signature.write_to, Signature.byte_size, VariantInt.write_to,
    VariantInt.byte_size]
  omega

theorem Signatures.signatures_write_length (s : Signatures) :
    s.write_to.length = s.byte_size := by
  cases s with
  | mk c sigs =>
    simp [Signatures.write_to, Signatures.byte_size, VariantInt.write_to,
      VariantInt.byte_size, List.length_flatten, Function.comp_def,
      Function.comp, Signature.signature_write_length]

theorem Index.index_write_length (x : Index) :
    x.write_to.length = x.byte_size := by
  cases x with
  | mk sz ct cc dc dcs =>
    simp [Index.write_to, Index.byte_size, VariantInt.write_to,
      VariantInt.byte_size, List.length_flatten, Function.comp_def,
      Function.comp, Chunk.chunk_write_length]
    omega

/-- Parsing the serialization of a well-formed `Preface` (no optional
element, canonical fields, accepted compression type). -/
theorem Preface.preface_parse_encode (r : Reader) (p : Preface) (rest : List Nat)
    (hdata : r.data.drop r.pos = p.write_to ++ rest)
    (hdc : p.data_checksum.length = 32)
    (hfl : ∃ f, f < 2 ^ 64 ∧ p.flags = PrefaceFlags.from_u64 f ∧ f &&& 0x02 = 0)
    (hct : ∃ m, m < 2 ^ 64 ∧ p.compression_type = VariantInt.fromU64 m ∧
      (m % 256 = COMPRESSION_NONE ∨ m % 256 = COMPRESSION_ZSTD))
    (hoc : p.optional_element_count = none) :
    Preface.from_reader r = .ok (p, ⟨r.data, r.pos + p.write_to.length⟩) := by
  obtain ⟨f, hf, hflv, hfopt⟩ := hfl
  obtain ⟨m, hm, hctv, hmacc⟩ := hct
  have hflat : r.data.drop r.pos =
      p.data_checksum ++ (p.flags.vint.bytes ++ (p.compression_type.bytes ++ rest)) := by
    rw [hdata]
    simp [Preface.write_to, PrefaceFlags.write_to, VariantInt.write_to, hoc]
  have h1 : r.readExact 32 = .ok (p.data_checksum, ⟨r.data, r.pos + 32⟩) := by
    have := readExact_of_append r p.data_checksum
      (p.flags.vint.bytes ++ (p.compression_type.bytes ++ rest)) (by omega) hflat
    rw [hdc] at this
    exact this
  have hd1 : r.data.drop (r.pos + 32) =
      p.flags.vint.bytes ++ (p.compression_type.bytes ++ rest) := by
    have := drop_add_append _ _ _ _ hflat
    rw [hdc] at this
    exact this
  have h2 : (Reader.mk r.data (r.pos + 32)).readVariantInt =
      .ok (VariantInt.fromU64 f,
        ⟨r.data, r.pos + 32 + (VariantInt.fromU64Loop f).length⟩) := by
    apply reader_readVariantInt_encode
    simpa [hflv, PrefaceFlags.from_u64, VariantInt.fromU64] using hd1
  have hd2 : r.data.drop (r.pos + 32 + (VariantInt.fromU64Loop f).length) =
      p.compression_type.bytes ++ rest := by
    have := drop_add_append _ _ _ _ hd1
    rw [hflv] at this
    simpa [PrefaceFlags.from_u64, VariantInt.fromU64] using this
  have h3 : (Reader.mk r.data
      (r.pos + 32 + (VariantInt.fromU64Loop f).length)).readVariantInt =
      .ok (VariantInt.fromU64 m,
        ⟨r.data, r.pos + 32 + (VariantInt.fromU64Loop f).length +
          (VariantInt.fromU64Loop m).length⟩) := by
    apply reader_readVariantInt_encode
    simpa [hctv, VariantInt.fromU64] using hd2
  have hhasopt : (PrefaceFlags.mk (VariantInt.fromU64 f) f).has_optional = false := by
    simp [PrefaceFlags.has_optional, hfopt]
  rw [Preface.from_reader]
  simp only [h1, h2]
  rw [show PrefaceFlags.from_variant_int (VariantInt.fromU64 f) =
    .ok (PrefaceFlags.mk (VariantInt.fromU64 f) f) from by
      rw [PrefaceFlags.from_variant_int, VariantInt.toU64_fromU64 f hf]]
  simp only [h3, VariantInt.toU64_fromU64 m hm]
  rw [if_neg (by
    rcases hmacc with h | h <;> simp [h, COMPRESSION_NONE, COMPRESSION_ZSTD])]
  rw [hhasopt]
  simp only [Bool.false_eq_true, if_false]
  rw [show (PrefaceFlags.mk (VariantInt.fromU64 f) f) = p.flags from by
    rw [hflv]; rfl]
  rw [← hctv, ← hoc]
  rw [Except.ok.injEq, Prod.mk.injEq]
  refine ⟨rfl, ?_⟩
  rw [Reader.mk.injEq]
  refine ⟨rfl, ?_⟩
  have hwl : p.write_to.length =
      32 + (VariantInt.fromU64Loop f).length + (VariantInt.fromU64Loop m).length := by
    simp only [Preface.write_to, PrefaceFlags.write_to, VariantInt.write_to,
      List.length_append, hdc, hoc, hflv, hctv, PrefaceFlags.from_u64,
      VariantInt.fromU64]
    simp
  omega

/-- Parsing the serialization of a well-formed `Chunk` under flags with no
per-chunk stream field. -/
theorem Chunk.chunk_parse_encode (r : Reader) (c : Chunk) (rest : List Nat)
    (flags : PrefaceFlags)
    (hdata : r.data.drop r.pos = c.write_to ++ rest)
    (hst : c.stream = none)
    (hfs : flags.has_stream = false)
    (hcs : c.checksum.length = 16)
    (hlen : ∃ a, a < 2 ^ 64 ∧ c.length = VariantInt.fromU64 a)
    (hulen : ∃ b, b < 2 ^ 64 ∧ c.uncompressed_length = VariantInt.fromU64 b) :
    Chunk.from_reader r flags = .ok (c, ⟨r.data, r.pos + c.write_to.length⟩) := by
  obtain ⟨a, ha, hav⟩ := hlen
  obtain ⟨b, hb, hbv⟩ := hulen
  have hflat : r.data.drop r.pos =
      c.checksum ++ (c.length.bytes ++ (c.uncompressed_length.bytes ++ rest)) := by
    rw [hdata]
    simp [Chunk.write_to, VariantInt.write_to, hst]
  have h1 : r.readExact 16 = .ok (c.checksum, ⟨r.data, r.pos + 16⟩) := by
    have := readExact_of_append r c.checksum
      (c.length.bytes ++ (c.uncompressed_length.bytes ++ rest)) (by omega) hflat
    rw [hcs] at this
    exact this
  have hd1 : r.data.drop (r.pos + 16) =
      c.length.bytes ++ (c.uncompressed_length.bytes ++ rest) := by
    have := drop_add_append _ _ _ _ hflat
    rw [hcs] at this
    exact this
  have h2 : (Reader.mk r.data (r.pos + 16)).readVariantInt =
      .ok (VariantInt.fromU64 a,
        ⟨r.data, r.pos + 16 + (VariantInt.fromU64Loop a).length⟩) := by
    apply reader_readVariantInt_encode
    simpa [hav, VariantInt.fromU64] using hd1
  have hd2 : r.data.drop (r.pos + 16 + (VariantInt.fromU64Loop a).length) =
      c.uncompressed_length.bytes ++ rest := by
    have := drop_add_append _ _ _ _ hd1
    rw [hav] at this
    simpa [VariantInt.fromU64] using this
  have h3 : (Reader.mk r.data
      (r.pos + 16 + (VariantInt.fromU64Loop a).length)).readVariantInt =
      .ok (VariantInt.fromU64 b,
        ⟨r.data, r.pos + 16 + (VariantInt.fromU64Loop a).length +
          (VariantInt.fromU64Loop b).length⟩) := by
    apply reader_readVariantInt_encode
    simpa [hbv, VariantInt.fromU64] using hd2
  rw [Chunk.from_reader, hfs]
  simp only [Bool.false_eq_true, if_false]
  simp only [h1, h2, h3]
  rw [← hav, ← hbv, ← hst]
  rw [Except.ok.injEq, Prod.mk.injEq]
  refine ⟨rfl, ?_⟩
  rw [Reader.mk.injEq]
  refine ⟨rfl, ?_⟩
  have hwl : c.write_to.length =
      16 + (VariantInt.fromU64Loop a).length + (VariantInt.fromU64Loop b).length := by
    simp only [Chunk.write_to, VariantInt.write_to, List.length_append, hcs,
      hst, hav, hbv, VariantInt.fromU64]
    simp
  omega

end Zchunk

namespace Zchunk

theorem Signatures.from_reader_encode_empty (r : Reader) (rest : List Nat)
    (hdata : r.data.drop r.pos = (Signatures.new []).write_to ++ rest) :
    Signatures.from_reader r = .ok (Signatures.new [],
      ⟨r.data, r.pos + (Signatures.new []).write_to.length⟩) := by
  have hwt : (Signatures.new []).write_to = VariantInt.fromU64Loop 0 := by
    simp [Signatures.new, Signatures.write_to, VariantInt.write_to,
      VariantInt.fromU64]
  have hd : r.data.drop r.pos = VariantInt.fromU64Loop 0 ++ rest := by
    rw [hdata, hwt]
  have h1 := reader_readVariantInt_encode r 0 rest hd
  rw [Signatures.from_reader]
  simp only [h1, VariantInt.toU64_fromU64 0 (by norm_num)]
  rw [show Signatures.fromReaderLoop 0
      (Reader.mk r.data (r.pos + (VariantInt.fromU64Loop 0).length)) =
    .ok ([], Reader.mk r.data (r.pos + (VariantInt.fromU64Loop 0).length)) from rfl]
  simp [Signatures.new, Signatures.write_to, VariantInt.write_to,
    VariantInt.fromU64]

theorem Index.fromReaderLoop_encode (flags : PrefaceFlags)
    (hfs : flags.has_stream = false) :
    ∀ (chunks : List Chunk) (r : Reader) (off : Nat) (rest : List Nat),
      r.data.drop r.pos = (chunks.map Chunk.write_to).flatten ++ rest →
      (∀ c ∈ chunks, c.stream = none ∧ c.checksum.length = 16 ∧
        (∃ a, a < 2 ^ 64 ∧ c.length = VariantInt.fromU64 a) ∧
        (∃ b, b < 2 ^ 64 ∧ c.uncompressed_length = VariantInt.fromU64 b)) →
      ∃ dcs, Index.fromReaderLoop flags chunks.length r off = .ok (dcs,
          ⟨r.data, r.pos + ((chunks.map Chunk.write_to).flatten).length⟩) ∧
        dcs.map Prod.fst = chunks := by
  intro chunks
  induction chunks with
  | nil =>
    intro r off rest _ _
    exact ⟨[], by simp [Index.fromReaderLoop], rfl⟩
  | cons c cs ih =>
    intro r off rest hdata hwf
    obtain ⟨hst, hcs, ⟨a, ha, hav⟩, hb⟩ := hwf c (by simp)
    have hdata' : r.data.drop r.pos =
        c.write_to ++ ((cs.map Chunk.write_to).flatten ++ rest) := by
      rw [hdata]
      simp
    have h1 := Chunk.chunk_parse_encode r c
      ((cs.map Chunk.write_to).flatten ++ rest) flags hdata' hst hfs hcs
      ⟨a, ha, hav⟩ hb
    have hd1 : r.data.drop (r.pos + c.write_to.length) =
        (cs.map Chunk.write_to).flatten ++ rest :=
      drop_add_append _ _ _ _ hdata'
    obtain ⟨dcs, hloop, hfst⟩ := ih (Reader.mk r.data (r.pos + c.write_to.length))
      ((off + a % 2 ^ 32) % 2 ^ 32) rest hd1 (fun x hx => hwf x (by simp [hx]))
    refine ⟨(c, off) :: dcs, ?_, by simp [hfst]⟩
    show Index.fromReaderLoop flags (cs.length + 1) r off = _
    rw [Index.fromReaderLoop]
    simp only [h1, hav, VariantInt.toU64_fromU64 a ha, hloop]
    rw [Except.ok.injEq, Prod.mk.injEq]
    refine ⟨rfl, ?_⟩
    rw [Reader.mk.injEq]
    refine ⟨rfl, ?_⟩
    simp
    omega

end Zchunk

namespace Zchunk

theorem except_bind_ok {A B : Type} (a : A) (f : A → Except ZchunkError B) :
    (Except.ok a : Except ZchunkError A) >>= f = f a := rfl

theorem except_bind_error {A B : Type} (e : ZchunkError)
    (f : A → Except ZchunkError B) :
    (Except.error e : Except ZchunkError A) >>= f =
      (Except.error e : Except ZchunkError B) := rfl

theorem Index.index_parse_encode (r : Reader) (x : Index) (rest : List Nat)
    (flags : PrefaceFlags) (hfs : flags.has_stream = false)
    (hdata : r.data.drop r.pos = x.write_to ++ rest)
    (hsz : ∃ s, s < 2 ^ 64 ∧ x.size = VariantInt.fromU64 s ∧
      s = (x.checksum_type.byte_size + x.chunks_count.byte_size +
        x.dict_chunk.byte_size +
        (x.data_chunks.map (fun p => p.1.byte_size)).sum) % 2 ^ 64)
    (hct : ∃ t, t < 2 ^ 64 ∧ x.checksum_type = VariantInt.fromU64 t ∧
      (t % 256 = CHECKSUM_SHA1 ∨ t % 256 = CHECKSUM_SHA256 ∨
        t % 256 = CHECKSUM_SHA512 ∨ t % 256 = CHECKSUM_SHA512_128))
    (hcc : x.chunks_count = VariantInt.fromU64 (x.data_chunks.length + 1) ∧
      x.data_chunks.length + 1 < 2 ^ 64)
    (hdict : x.dict_chunk.stream = none ∧ x.dict_chunk.checksum.length = 16 ∧
      (∃ a, a < 2 ^ 64 ∧ x.dict_chunk.length = VariantInt.fromU64 a) ∧
      (∃ b, b < 2 ^ 64 ∧ x.dict_chunk.uncompressed_length = VariantInt.fromU64 b))
    (hchunks : ∀ p ∈ x.data_chunks, p.1.stream = none ∧ p.1.checksum.length = 16 ∧
      (∃ a, a < 2 ^ 64 ∧ p.1.length = VariantInt.fromU64 a) ∧
      (∃ b, b < 2 ^ 64 ∧ p.1.uncompressed_length = VariantInt.fromU64 b)) :
    ∃ dcs, Index.from_reader r flags = .ok (⟨x.size, x.checksum_type,
        x.chunks_count, x.dict_chunk, dcs⟩, ⟨r.data, r.pos + x.write_to.length⟩) ∧
      dcs.map Prod.fst = x.data_chunks.map Prod.fst := by
  obtain ⟨s, hs, hszv, hseq⟩ := hsz
  obtain ⟨t, ht, hctv, htacc⟩ := hct
  obtain ⟨hccv, hcclt⟩ := hcc
  obtain ⟨hdst, hdcs16, ⟨da, hda, hdav⟩, hdb⟩ := hdict
  have hflat : r.data.drop r.pos = x.size.bytes ++ (x.checksum_type.bytes ++
      (x.chunks_count.bytes ++ (x.dict_chunk.write_to ++
        ((x.data_chunks.map (fun p => p.1.write_to)).flatten ++ rest)))) := by
    rw [hdata]
    simp [Index.write_to, VariantInt.write_to]
  have h1 : r.readVariantInt = .ok (VariantInt.fromU64 s,
      ⟨r.data, r.pos + (VariantInt.fromU64Loop s).length⟩) := by
    apply reader_readVariantInt_encode
    simpa [hszv, VariantInt.fromU64] using hflat
  have hd1 : r.data.drop (r.pos + (VariantInt.fromU64Loop s).length) =
      x.checksum_type.bytes ++ (x.chunks_count.bytes ++ (x.dict_chunk.write_to ++
        ((x.data_chunks.map (fun p => p.1.write_to)).flatten ++ rest))) := by
    have := drop_add_append _ _ _ _ hflat
    rw [hszv] at this
    simpa [VariantInt.fromU64] using this
  set p1 := r.pos + (VariantInt.fromU64Loop s).length with hp1
  have h2 : (Reader.mk r.data p1).readVariantInt = .ok (VariantInt.fromU64 t,
      ⟨r.data, p1 + (VariantInt.fromU64Loop t).length⟩) := by
    apply reader_readVariantInt_encode
    simpa [hctv, VariantInt.fromU64] using hd1
  have hd2 : r.data.drop (p1 + (VariantInt.fromU64Loop t).length) =
      x.chunks_count.bytes ++ (x.dict_chunk.write_to ++
        ((x.data_chunks.map (fun p => p.1.write_to)).flatten ++ rest)) := by
    have := drop_add_append _ _ _ _ hd1
    rw [hctv] at this
    simpa [VariantInt.fromU64] using this
  set p2 := p1 + (VariantInt.fromU64Loop t).length with hp2
  have h3 : (Reader.mk r.data p2).readVariantInt =
      .ok (VariantInt.fromU64 (x.data_chunks.length + 1),
        ⟨r.data, p2 + (VariantInt.fromU64Loop (x.data_chunks.length + 1)).length⟩) := by
    apply reader_readVariantInt_encode
    simpa [hccv, VariantInt.fromU64] using hd2
  have hd3 : r.data.drop
      (p2 + (VariantInt.fromU64Loop (x.data_chunks.length + 1)).length) =
      x.dict_chunk.write_to ++
        ((x.data_chunks.map (fun p => p.1.write_to)).flatten ++ rest) := by
    have := drop_add_append _ _ _ _ hd2
    rw [hccv] at this
    simpa [VariantInt.fromU64] using this
  set p3 := p2 + (VariantInt.fromU64Loop (x.data_chunks.length + 1)).length with hp3
  have h4 : Chunk.from_reader (Reader.mk r.data p3) flags =
      .ok (x.dict_chunk, ⟨r.data, p3 + x.dict_chunk.write_to.length⟩) :=
    Chunk.chunk_parse_encode _ _ _ _ hd3 hdst hfs hdcs16 ⟨da, hda, hdav⟩ hdb
  have hd4 : r.data.drop (p3 + x.dict_chunk.write_to.length) =
      (x.data_chunks.map (fun p => p.1.write_to)).flatten ++ rest :=
    drop_add_append _ _ _ _ hd3
  set p4 := p3 + x.dict_chunk.write_to.length with hp4
  have hmapmap : ((x.data_chunks.map Prod.fst).map Chunk.write_to).flatten =
      (x.data_chunks.map (fun p => p.1.write_to)).flatten := by
    rw [List.map_map]
    rfl
  obtain ⟨dcs, hloop, hfst⟩ := Index.fromReaderLoop_encode flags hfs
    (x.data_chunks.map Prod.fst) (Reader.mk r.data p4) (da % 2 ^ 32) rest
    (by rw [hmapmap]; exact hd4)
    (by intro c hc
        rw [List.mem_map] at hc
        obtain ⟨p, hp, hpc⟩ := hc
        subst hpc
        exact hchunks p hp)
  have hiter : (x.data_chunks.length + 1 + 2 ^ 64 - 1) % 2 ^ 64 =
      (x.data_chunks.map Prod.fst).length := by
    rw [show x.data_chunks.length + 1 + 2 ^ 64 - 1 =
      x.data_chunks.length + 2 ^ 64 from by omega]
    rw [Nat.add_mod_right,
      Nat.mod_eq_of_lt (show x.data_chunks.length < 2 ^ 64 from by omega),
      List.length_map]
  have hbytesum : (dcs.map (fun p => p.1.byte_size)).sum =
      (x.data_chunks.map (fun p => p.1.byte_size)).sum := by
    have h1 : dcs.map (fun p => p.1.byte_size) =
        (dcs.map Prod.fst).map Chunk.byte_size := by
      rw [List.map_map]; rfl
    have h2 : x.data_chunks.map (fun p => p.1.byte_size) =
        (x.data_chunks.map Prod.fst).map Chunk.byte_size := by
      rw [List.map_map]; rfl
    rw [h1, h2, hfst]
  refine ⟨dcs, ?_, by rw [hfst]⟩
  rw [Index.from_reader]
  simp only [h1, h2, except_bind_ok, VariantInt.toU64_fromU64 t ht]
  rw [if_pos htacc]
  simp only [h3, except_bind_ok]
  simp only [h4, except_bind_ok]
  rw [hdav, VariantInt.toU64_fromU64 da hda, except_bind_ok,
    VariantInt.toU64_fromU64 (x.data_chunks.length + 1) hcclt, except_bind_ok,
    hiter, hloop, except_bind_ok]
  rw [show ((VariantInt.fromU64 s).toU64 : Except ZchunkError Nat) = .ok s from
    VariantInt.toU64_fromU64 s hs, except_bind_ok]
  have hexpect : ((VariantInt.fromU64 t).byte_size +
      (VariantInt.fromU64 (x.data_chunks.length + 1)).byte_size +
      x.dict_chunk.byte_size + (dcs.map (fun p => p.1.byte_size)).sum) % 2 ^ 64
      = s := by
    rw [hbytesum, hseq, hctv, hccv]
  rw [if_neg (by rw [hexpect]; simp)]
  rw [← hszv, ← hctv, ← hccv]
  rw [Except.ok.injEq, Prod.mk.injEq]
  refine ⟨rfl, ?_⟩
  rw [Reader.mk.injEq]
  refine ⟨rfl, ?_⟩
  have hwl : x.write_to.length = (VariantInt.fromU64Loop s).length +
      (VariantInt.fromU64Loop t).length +
      (VariantInt.fromU64Loop (x.data_chunks.length + 1)).length +
      x.dict_chunk.write_to.length +
      ((x.data_chunks.map (fun p => p.1.write_to)).flatten).length := by
    simp only [Index.write_to, VariantInt.write_to, List.length_append, hszv,
      hctv, hccv, VariantInt.fromU64]
  have hflatlen := congrArg List.length hmapmap
  show p4 + (List.map Chunk.write_to (List.map Prod.fst x.data_chunks)).flatten.length
    = r.pos + x.write_to.length
  rw [hwl]
  omega

end Zchunk

namespace Zchunk

theorem Chunker.next_none_buf (c : Chunker) (h : c.next = none) :
    c.fillBuffer.buf.length = 0 := by
  by_contra hne
  rw [Chunker.next, if_neg hne] at h
  split at h
  · cases h
  · split at h <;> cases h

theorem Chunker.fillBuffer_empty_all (c : Chunker) (hmax : 1 ≤ c.max)
    (h : c.fillBuffer.buf = []) : c.buf = [] ∧ c.input = [] := by
  rw [Chunker.fillBuffer] at h
  split at h
  · next hlt =>
    simp only [List.append_eq_nil] at h
    obtain ⟨hb, ht⟩ := h
    refine ⟨hb, ?_⟩
    rw [List.take_eq_nil_iff] at ht
    rcases ht with ht | ht
    · rw [hb] at ht
      simp at ht
      omega
    · exact ht
  · next hge =>
    rw [h] at hge
    simp at hge
    omega

theorem Chunker.run_concat (minv maxv bm : Nat) (h1 : 1 ≤ minv)
    (hmm : minv ≤ maxv) :
    ∀ (fuel : Nat) (c : Chunker), c.min = minv → c.max = maxv → c.bitmask = bm →
      c.buf.length + c.input.length < fuel →
      (Chunker.run fuel c).flatten = c.buf ++ c.input := by
  intro fuel
  induction fuel with
  | zero => intro c _ _ _ h; omega
  | succ fuel ih =>
    intro c hcmin hcmax hcbm hlt
    rw [Chunker.run]
    cases hnext : c.next with
    | none =>
      have hfb : c.fillBuffer.buf.length = 0 := Chunker.next_none_buf c hnext
      have := Chunker.fillBuffer_empty_all c (by omega)
        (List.length_eq_zero.mp hfb)
      simp [this.1, this.2]
    | some pair =>
      obtain ⟨chunk, c2⟩ := pair
      have hspec := Chunker.next_some_spec c chunk c2 (by omega) (by omega) hnext
      obtain ⟨e1, e2, e3, hcat, hinp, hone, hle, _⟩ := hspec
      have htotal : c.fillBuffer.buf.length + c.fillBuffer.input.length =
          c.buf.length + c.input.length := by
        have := congrArg List.length (Chunker.fillBuffer_concat c)
        simpa using this
      have hmeasure : c2.buf.length + c2.input.length < fuel := by
        have hc : chunk.length + c2.buf.length = c.fillBuffer.buf.length := by
          rw [← hcat, List.length_append]
        have hi : c2.input.length = c.fillBuffer.input.length := by rw [hinp]
        omega
      have hrec := ih c2 (by omega) (by omega) (by rw [e3, hcbm]) hmeasure
      simp only [List.flatten_cons, hrec]
      rw [← List.append_assoc, hcat, hinp]
      exact Chunker.fillBuffer_concat c

theorem length_le_flatten_length (l : List (List Nat))
    (h : ∀ x ∈ l, 1 ≤ x.length) : l.length ≤ l.flatten.length := by
  induction l with
  | nil => simp
  | cons x xs ih =>
    simp only [List.flatten_cons, List.length_cons, List.length_append]
    have hx := h x (by simp)
    have := ih (fun y hy => h y (by simp [hy]))
    omega

theorem Encoder.prepareLoop_run (sha512 compress : List Nat → List Nat) :
    ∀ (fuel : Nat) (c : Chunker),
      Encoder.prepareLoop sha512 compress fuel c =
        (((Chunker.run fuel c).map compress).flatten,
          (Chunker.run fuel c).map (fun u =>
            Chunk.new ((sha512 (compress u)).take 16)
              ((compress u).length % 2 ^ 32) (u.length % 2 ^ 32))) := by
  intro fuel
  induction fuel with
  | zero => intro c; rfl
  | succ fuel ih =>
    intro c
    rw [Encoder.prepareLoop, Chunker.run]
    cases hnext : c.next with
    | none => rfl
    | some pair =>
      obtain ⟨u, c2⟩ := pair
      simp [ih c2]

theorem Index.newLoop_spec (chunks : List Chunk)
    (h : ∀ c ∈ chunks, ∃ a, a < 2 ^ 64 ∧ c.length = VariantInt.fromU64 a) :
    ∀ off, ∃ dcs, Index.newLoop chunks off = .ok dcs ∧
      dcs.map Prod.fst = chunks := by
  induction chunks with
  | nil => intro off; exact ⟨[], rfl, rfl⟩
  | cons c cs ih =>
    intro off
    obtain ⟨a, ha, hav⟩ := h c (by simp)
    obtain ⟨dcs, hloop, hfst⟩ := ih (fun x hx => h x (by simp [hx]))
      ((off + a % 2 ^ 32) % 2 ^ 32)
    refine ⟨(c, off) :: dcs, ?_, by simp [hfst]⟩
    rw [Index.newLoop, hav, VariantInt.toU64_fromU64 a ha, except_bind_ok,
      hloop, except_bind_ok]

theorem Index.new_spec (chunks : List Chunk)
    (h : ∀ c ∈ chunks, ∃ a, a < 2 ^ 64 ∧ c.length = VariantInt.fromU64 a) :
    ∃ dcs, Index.new chunks = .ok ⟨VariantInt.fromU64
        (((VariantInt.fromU64 CHECKSUM_SHA512_128).byte_size +
          (VariantInt.fromU64 ((chunks.length % 2 ^ 64 + 1) % 2 ^ 64)).byte_size +
          (Chunk.new (List.replicate 16 0) 0 0).byte_size +
          (chunks.map Chunk.byte_size).sum) % 2 ^ 64),
        VariantInt.fromU64 CHECKSUM_SHA512_128,
        VariantInt.fromU64 ((chunks.length % 2 ^ 64 + 1) % 2 ^ 64),
        Chunk.new (List.replicate 16 0) 0 0, dcs⟩ ∧
      dcs.map Prod.fst = chunks := by
  obtain ⟨dcs, hloop, hfst⟩ := Index.newLoop_spec chunks h (0 % 2 ^ 32)
  refine ⟨dcs, ?_, hfst⟩
  rw [Index.new]
  rw [show (Chunk.new (List.replicate 16 0) 0 0).length.toU64 = .ok 0 from
    VariantInt.toU64_fromU64 0 (by norm_num)]
  rw [except_bind_ok, hloop, except_bind_ok]

end Zchunk

namespace Zchunk

theorem Header.compute_and_set_checksum_spec (sha256 : List Nat → List Nat)
    (h : Header)
    (hhs : ∃ n, n < 2 ^ 64 ∧ h.lead.header_size = VariantInt.fromU64 n)
    (hlen : (sha256 (h.write_to true)).length = 32) :
    Header.compute_and_set_checksum sha256 h =
      .ok { h with lead :=
        { h.lead with header_checksum := sha256 (h.write_to true) } } := by
  obtain ⟨n, hn, hv⟩ := hhs
  rw [Header.compute_and_set_checksum, hv, VariantInt.toU64_fromU64 n hn]
  simp [hlen]

theorem sum_le_mul_of_forall_le (l : List Nat) (k : Nat)
    (h : ∀ x ∈ l, x ≤ k) : l.sum ≤ l.length * k := by
  induction l with
  | nil => simp
  | cons x xs ih =>
    simp only [List.sum_cons, List.length_cons]
    have hx := h x (by simp)
    have := ih (fun y hy => h y (by simp [hy]))
    calc x + xs.sum ≤ k + xs.length * k := by omega
      _ = (xs.length + 1) * k := by ring

theorem Decoder.decompressLoop_encode
    (decompress : List Nat → Except ZchunkError (List Nat))
    (decompressD : List Nat → List Nat → Except ZchunkError (List Nat))
    (compress sha512 : List Nat → List Nat)
    (hinv : ∀ b, decompress (compress b) = .ok b)
    (hclen : ∀ b, (compress b).length < 2 ^ 32) :
    ∀ (raws : List (List Nat)) (dcs : List (Chunk × Nat)) (data : List Nat)
      (pos : Nat),
      dcs.map Prod.fst = raws.map (fun u =>
        Chunk.new ((sha512 (compress u)).take 16)
          ((compress u).length % 2 ^ 32) (u.length % 2 ^ 32)) →
      pos ≤ data.length →
      data.drop pos = (raws.map compress).flatten →
      Decoder.decompressLoop decompress decompressD none dcs ⟨data, pos⟩ =
        .ok (raws.flatten, ⟨data, data.length⟩) := by
  intro raws
  induction raws with
  | nil =>
    intro dcs data pos hmap hpos hdata
    have hdcs : dcs = [] := by
      cases dcs with
      | nil => rfl
      | cons p ps => simp at hmap
    subst hdcs
    have : data.length - pos = 0 := by
      have := congrArg List.length hdata
      simpa using this
    have hp : pos = data.length := by omega
    rw [Decoder.decompressLoop, hp]
    rfl
  | cons u raws ih =>
    intro dcs data pos hmap hpos hdata
    cases dcs with
    | nil => simp at hmap
    | cons p dcs =>
      obtain ⟨c0, off0⟩ := p
      simp only [List.map_cons, List.cons.injEq] at hmap
      obtain ⟨hc0, hmap'⟩ := hmap
      have hdata' : data.drop pos = compress u ++ ((raws.map compress).flatten) := by
        rw [hdata]
        simp
      have hlenbound : pos + (compress u).length ≤ data.length := by
        have := congrArg List.length hdata'
        simp only [List.length_drop, List.length_append] at this
        omega
      rw [Decoder.decompressLoop]
      rw [show c0.length = VariantInt.fromU64 ((compress u).length % 2 ^ 32) from
        by rw [hc0]; rfl]
      rw [VariantInt.toU64_fromU64 _ (by
        have := (compress u).length.mod_lt (y := 2 ^ 32) (by norm_num)
        calc (compress u).length % 2 ^ 32 < 2 ^ 32 := this
          _ ≤ 2 ^ 64 := by norm_num)]
      rw [except_bind_ok]
      rw [Nat.mod_eq_of_lt (hclen u)]
      simp only []
      rw [show (data.drop pos).take (compress u).length = compress u from by
        rw [hdata']; exact List.take_left' rfl]
      rw [hinv u, except_bind_ok]
      rw [show min (pos + (compress u).length) data.length =
        pos + (compress u).length from by omega]
      have hdrop : data.drop (pos + (compress u).length) =
          (raws.map compress).flatten := by
        have := drop_add_append _ _ _ _ hdata'
        exact this
      rw [ih dcs data (pos + (compress u).length) hmap' (by omega) hdrop]
      rw [except_bind_ok]
      simp

end Zchunk

namespace Zchunk

/-- The 32-bit wrapping offset sequence: starting from `off`, each chunk is
assigned the current offset, and the offset then advances by the chunk's
length cast to `u32`, all modulo `2 ^ 32`.  This is exactly the
`chunk_offset` accumulation of `Index::new` and `Index::from_reader`
(`ChunkOffset = u32`). -/
def wrapOffsets (off : Nat) : List Nat → List Nat
  | [] => []
  | l :: ls => off :: wrapOffsets ((off + l % 2 ^ 32) % 2 ^ 32) ls

theorem wrapOffsets_getD (ls : List Nat) :
    ∀ (off i : Nat), off < 2 ^ 32 → i < ls.length → (∀ l ∈ ls, l < 2 ^ 32) →
      (wrapOffsets off ls).getD i 0 = (off + (ls.take i).sum) % 2 ^ 32 := by
  induction ls with
  | nil => intro off i _ hi _; simp at hi
  | cons l ls ih =>
    intro off i hoff hi hsm
    cases i with
    | zero =>
      simp only [wrapOffsets, List.getD_cons_zero, List.take_zero,
        List.sum_nil, Nat.add_zero]
      exact (Nat.mod_eq_of_lt hoff).symm
    | succ i =>
      have hl : l < 2 ^ 32 := hsm l (by simp)
      have hrec := ih ((off + l % 2 ^ 32) % 2 ^ 32) i
        (Nat.mod_lt _ (by norm_num)) (by simpa using hi)
        (fun x hx => hsm x (by simp [hx]))
      simp only [wrapOffsets, List.getD_cons_succ, List.take_succ_cons,
        List.sum_cons]
      rw [hrec, Nat.mod_add_mod, Nat.mod_eq_of_lt hl, Nat.add_assoc]

theorem newLoop_wrapOffsets (chunks : List Chunk) :
    ∀ (ls : List Nat) (off : Nat),
      chunks.map (fun c => c.length.toU64) = ls.map Except.ok →
      Index.newLoop chunks off = .ok (chunks.zip (wrapOffsets off ls)) := by
  induction chunks with
  | nil => intro ls off _; rfl
  | cons c cs ih =>
    intro ls off h
    cases ls with
    | nil => simp at h
    | cons l ls =>
      simp only [List.map_cons, List.cons.injEq] at h
      obtain ⟨h1, h2⟩ := h
      rw [Index.newLoop, h1, except_bind_ok, ih ls _ h2, except_bind_ok]
      rfl

theorem fromReaderLoop_wrapOffsets (flags : PrefaceFlags) :
    ∀ (n : Nat) (r : Reader) (off : Nat) (dcs : List (Chunk × Nat)) (r2 : Reader)
      (ls : List Nat),
      Index.fromReaderLoop flags n r off = .ok (dcs, r2) →
      dcs.map (fun p => p.1.length.toU64) = ls.map Except.ok →
      dcs.map Prod.snd = wrapOffsets off ls := by
  intro n
  induction n with
  | zero =>
    intro r off dcs r2 ls h hmap
    rw [Index.fromReaderLoop] at h
    rw [Except.ok.injEq, Prod.mk.injEq] at h
    obtain ⟨h1, _⟩ := h
    subst h1
    cases ls with
    | nil => rfl
    | cons l ls => simp at hmap
  | succ n ih =>
    intro r off dcs r2 ls h hmap
    rw [Index.fromReaderLoop] at h
    split at h
    · exact Except.noConfusion h
    · split at h
      · exact Except.noConfusion h
      · split at h
        · exact Except.noConfusion h
        · rename_i chunk rmid hcr sc1 l hl0 sc2 rest r2' hrec
          rw [Except.ok.injEq, Prod.mk.injEq] at h
          obtain ⟨h1, _⟩ := h
          subst h1
          cases ls with
          | nil => simp at hmap
          | cons l1 ls =>
            simp only [List.map_cons, List.cons.injEq] at hmap
            obtain ⟨hm1, hm2⟩ := hmap
            rw [hl0, Except.ok.injEq] at hm1
            subst hm1
            simp only [List.map_cons, wrapOffsets, List.cons.injEq]
            exact ⟨trivial, ih rmid _ rest r2' ls hrec hm2⟩

/-- C10: chunk offsets are accumulated in wrapping 32-bit arithmetic in
both `Index.newLoop` (building) and `Index.fromReaderLoop` (parsing): both
assign the `wrapOffsets` sequence, whose `i`-th entry is the running sum of
the 32-bit-cast lengths reduced modulo `2 ^ 32`; whenever the true byte
offset `off + Σ lengths` reaches `2 ^ 32`, the computed offset differs from
it. -/
theorem index_offsets_wrap_u32 (chunks : List Chunk) (ls : List Nat)
    (off i : Nat)
    (hl : chunks.map (fun c => c.length.toU64) = ls.map Except.ok)
    (hsmall : ∀ l ∈ ls, l < 2 ^ 32) (hoff : off < 2 ^ 32)
    (hi : i < ls.length) (hbig : 2 ^ 32 ≤ off + (ls.take i).sum) :
    Index.newLoop chunks off = .ok (chunks.zip (wrapOffsets off ls)) ∧
    (∀ (flags : PrefaceFlags) (n : Nat) (r : Reader) (dcs : List (Chunk × Nat))
        (r2 : Reader),
      Index.fromReaderLoop flags n r off = .ok (dcs, r2) →
      dcs.map (fun p => p.1.length.toU64) = ls.map Except.ok →
      dcs.map Prod.snd = wrapOffsets off ls) ∧
    (wrapOffsets off ls).getD i 0 = (off + (ls.take i).sum) % 2 ^ 32 ∧
    (wrapOffsets off ls).getD i 0 ≠ off + (ls.take i).sum := by
  have hg := wrapOffsets_getD ls off i hoff hi hsmall
  refine ⟨newLoop_wrapOffsets chunks ls off hl,
    fun flags n r dcs r2 h hm => fromReaderLoop_wrapOffsets flags n r off dcs r2 ls h hm,
    hg, ?_⟩
  rw [hg]
  have := Nat.mod_lt (off + (ls.take i).sum) (y := 2 ^ 32) (by norm_num)
  omega

/-- Witness for C10 at concrete inputs: three chunks of compressed lengths
`2 ^ 31`, `2 ^ 31` and `5`; the third chunk's computed offset is
`0`, not the true byte offset `2 ^ 32`. -/
theorem index_offsets_wrap_u32_witness :
    Index.newLoop
        [Chunk.new (List.replicate 16 0) (2 ^ 31) 0,
         Chunk.new (List.replicate 16 0) (2 ^ 31) 0,
         Chunk.new (List.replicate 16 0) 5 0] 0 =
      .ok ([Chunk.new (List.replicate 16 0) (2 ^ 31) 0,
            Chunk.new (List.replicate 16 0) (2 ^ 31) 0,
            Chunk.new (List.replicate 16 0) 5 0].zip
        (wrapOffsets 0 [2 ^ 31, 2 ^ 31, 5])) ∧
    (∀ (flags : PrefaceFlags) (n : Nat) (r : Reader) (dcs : List (Chunk × Nat))
        (r2 : Reader),
      Index.fromReaderLoop flags n r 0 = .ok (dcs, r2) →
      dcs.map (fun p => p.1.length.toU64) = [2 ^ 31, 2 ^ 31, 5].map Except.ok →
      dcs.map Prod.snd = wrapOffsets 0 [2 ^ 31, 2 ^ 31, 5]) ∧
    (wrapOffsets 0 [2 ^ 31, 2 ^ 31, 5]).getD 2 0 =
      (0 + ([2 ^ 31, 2 ^ 31, 5].take 2).sum) % 2 ^ 32 ∧
    (wrapOffsets 0 [2 ^ 31, 2 ^ 31, 5]).getD 2 0 ≠
      0 + ([2 ^ 31, 2 ^ 31, 5].take 2).sum := by
  have h31 : (VariantInt.fromU64 2147483648).toU64 = .ok 2147483648 :=
    VariantInt.toU64_fromU64 2147483648 (by norm_num)
  have h5 : (VariantInt.fromU64 5).toU64 = .ok 5 :=
    VariantInt.toU64_fromU64 5 (by norm_num)
  exact index_offsets_wrap_u32 _ [2 ^ 31, 2 ^ 31, 5] 0 2
    (by simp [Chunk.new, h31, h5])
    (by intro l hl; fin_cases hl <;> norm_num)
    (by norm_num) (by norm_num) (by norm_num)

end Zchunk

namespace Zchunk

/-- Shared unfolding of the non-zero-length path of
`Decoder.get_chunk_data`: once the length decodes to a non-zero `l` and
the `l`-byte window at `header_size + offset` is in range, the call reduces
to the checksum-type dispatch followed by the stored-vs-computed checksum
comparison. -/
theorem Decoder.get_chunk_data_step (sha256 sha512 : List Nat → List Nat)
    (d : Decoder) (offset : Nat) (chunk : Chunk) (l ct : Nat)
    (hlen : chunk.length.toU64 = .ok l) (hl : l ≠ 0)
    (hread : (d.header_size + offset) % 2 ^ 64 + l ≤ d.reader.data.length)
    (hct : d.header.index.checksum_type.toU64 = .ok ct) :
    d.get_chunk_data sha256 sha512 offset chunk =
      ((if ct % 256 = CHECKSUM_SHA256 then
          .ok ((sha256 ((d.reader.data.drop ((d.header_size + offset) % 2 ^ 64)).take l)).take 16)
        else if ct % 256 = CHECKSUM_SHA512 ∨ ct % 256 = CHECKSUM_SHA512_128 then
          .ok ((sha512 ((d.reader.data.drop ((d.header_size + offset) % 2 ^ 64)).take l)).take 16)
        else .error (.invalidChecksumType (ct % 256)) :
          Except ZchunkError (List Nat)) >>= fun result =>
        if chunk.checksum ≠ result then
          .error (.chunkChecksumNotMatch l chunk.checksum result)
        else .ok ((d.reader.data.drop ((d.header_size + offset) % 2 ^ 64)).take l,
          { d with reader := ⟨d.reader.data, (d.header_size + offset) % 2 ^ 64 + l⟩ })) := by
  have hbuf : (d.reader.seekFromStart ((d.header_size + offset) % 2 ^ 64)).readExact l =
      .ok ((d.reader.data.drop ((d.header_size + offset) % 2 ^ 64)).take l,
        ⟨d.reader.data, (d.header_size + offset) % 2 ^ 64 + l⟩) := by
    rw [Reader.readExact]
    simp only [Reader.seekFromStart]
    rw [if_pos hread]
  rw [Decoder.get_chunk_data, hlen, except_bind_ok, if_neg hl]
  simp only []
  rw [hbuf, except_bind_ok]
  simp only []
  rw [hct, except_bind_ok]

/-- C9: `Index.from_reader` accepts checksum type SHA-1 (code 0) — shown
on a concrete well-formed serialized index — while `Decoder.get_chunk_data`
dispatches only on SHA-256 / SHA-512 / SHA-512-128: under checksum type 0
a zero-length chunk short-circuits to an empty buffer, and every
non-zero-length chunk whose window is readable fails with
`invalidChecksumType 0`. -/
theorem sha1_index_parses_but_chunks_fail (sha256 sha512 : List Nat → List Nat)
    (d : Decoder) (offset : Nat) (chunk : Chunk) (ct l : Nat)
    (hct : d.header.index.checksum_type.toU64 = .ok ct)
    (hct0 : ct % 256 = CHECKSUM_SHA1)
    (hlen : chunk.length.toU64 = .ok l) :
    Index.from_reader
        ⟨[0x94, 0x80, 0x81] ++ List.replicate 16 0 ++ [0x80, 0x80], 0⟩
        (PrefaceFlags.from_u64 0) =
      .ok (⟨⟨[0x94]⟩, ⟨[0x80]⟩, ⟨[0x81]⟩,
        ⟨none, List.replicate 16 0, ⟨[0x80]⟩, ⟨[0x80]⟩⟩, []⟩,
        ⟨[0x94, 0x80, 0x81] ++ List.replicate 16 0 ++ [0x80, 0x80], 21⟩) ∧
    (l = 0 → d.get_chunk_data sha256 sha512 offset chunk = .ok ([], d)) ∧
    (l ≠ 0 → (d.header_size + offset) % 2 ^ 64 + l ≤ d.reader.data.length →
      d.get_chunk_data sha256 sha512 offset chunk =
        .error (.invalidChecksumType CHECKSUM_SHA1)) := by
  refine ⟨by rfl, ?_, ?_⟩
  · intro h0
    rw [Decoder.get_chunk_data, hlen, except_bind_ok, if_pos h0]
  · intro hne hread
    rw [Decoder.get_chunk_data_step sha256 sha512 d offset chunk l ct hlen hne hread hct]
    rw [if_neg (by rw [hct0]; decide), if_neg (by rw [hct0]; decide),
      except_bind_error, hct0]

/-- Concrete decoder over a 3-byte data region whose index declares
checksum type 0 (SHA-1). -/
def sha1DemoDecoder : Decoder :=
  ⟨⟨⟨ZCHUNK_VERSION_1, ⟨[0x81]⟩, ⟨[0x80]⟩, List.replicate 32 0⟩,
    ⟨List.replicate 32 0, ⟨⟨[0x80]⟩, 0⟩, ⟨[0x82]⟩, none⟩,
    ⟨⟨[0x94]⟩, ⟨[0x80]⟩, ⟨[0x81]⟩,
      ⟨none, List.replicate 16 0, ⟨[0x80]⟩, ⟨[0x80]⟩⟩, []⟩,
    ⟨⟨[0x80]⟩, []⟩⟩, 0, ⟨[1, 2, 3], 0⟩⟩

/-- Witness for C9: the concrete index parse succeeds, and on
`sha1DemoDecoder` a 3-byte chunk fails with `invalidChecksumType 0`. -/
theorem sha1_index_parses_but_chunks_fail_witness :
    (0 : Nat) % 256 = CHECKSUM_SHA1 ∧
    Index.from_reader
        ⟨[0x94, 0x80, 0x81] ++ List.replicate 16 0 ++ [0x80, 0x80], 0⟩
        (PrefaceFlags.from_u64 0) =
      .ok (⟨⟨[0x94]⟩, ⟨[0x80]⟩, ⟨[0x81]⟩,
        ⟨none, List.replicate 16 0, ⟨[0x80]⟩, ⟨[0x80]⟩⟩, []⟩,
        ⟨[0x94, 0x80, 0x81] ++ List.replicate 16 0 ++ [0x80, 0x80], 21⟩) ∧
    Decoder.get_chunk_data (fun _ => []) (fun _ => []) sha1DemoDecoder 0
        ⟨none, List.replicate 16 0, ⟨[0x83]⟩, ⟨[0x80]⟩⟩ =
      .error (.invalidChecksumType CHECKSUM_SHA1) := by
  have H := sha1_index_parses_but_chunks_fail (fun _ => []) (fun _ => [])
    sha1DemoDecoder 0 ⟨none, List.replicate 16 0, ⟨[0x83]⟩, ⟨[0x80]⟩⟩ 0 3
    rfl (by decide) rfl
  exact ⟨by decide, H.1, H.2.2 (by decide) (by decide)⟩

end Zchunk

namespace Zchunk

/-- Modelled from the spec: the bytes the spec says are hashed for the
header checksum — the serialized Lead with its 32-byte `header_checksum`
field PRESENT BUT ZEROED, followed by the serialized Preface, Index and
Signatures. -/
def specHeaderChecksumInput (h : Header) : List Nat :=
  (h.lead.id ++ h.lead.checksum_type.write_to ++ h.lead.header_size.write_to ++
    List.replicate 32 0) ++ h.preface.write_to ++ h.index.write_to ++
    h.signatures.write_to

/-- A hash function that records its input's length in the last byte of a
32-byte digest; it separates any two inputs of different lengths below
256. -/
def lengthTagHash (bs : List Nat) : List Nat :=
  List.replicate 31 0 ++ [bs.length % 256]

/-- A small concrete header (empty data-chunk list, no signatures). -/
def demoHeader : Header :=
  ⟨⟨ZCHUNK_VERSION_1, ⟨[0x81]⟩, ⟨[0x80]⟩, List.replicate 32 0⟩,
   ⟨List.replicate 32 0, ⟨⟨[0x80]⟩, 0⟩, ⟨[0x82]⟩, none⟩,
   ⟨⟨[0x94]⟩, ⟨[0x83]⟩, ⟨[0x81]⟩,
     ⟨none, List.replicate 16 0, ⟨[0x80]⟩, ⟨[0x80]⟩⟩, []⟩,
   ⟨⟨[0x80]⟩, []⟩⟩

/-- C5 counterexample: `compute_and_set_checksum` hashes the serialization
with the 32-byte checksum field omitted entirely, not zeroed: the bytes it
hashes differ from the spec's zeroed-field serialization (they are 32 bytes
shorter), and for a hash that records its input's length the stored
checksum differs from the spec's value. -/
theorem header_checksum_zeroed_counterexample :
    Header.compute_and_set_checksum lengthTagHash demoHeader =
      .ok { demoHeader with lead := { demoHeader.lead with
        header_checksum := lengthTagHash (demoHeader.write_to true) } } ∧
    demoHeader.write_to true ≠ specHeaderChecksumInput demoHeader ∧
    lengthTagHash (demoHeader.write_to true) ≠
      lengthTagHash (specHeaderChecksumInput demoHeader) := by
  exact ⟨rfl, by decide, by decide⟩

/-- C5 amended: the stored `header_checksum` is the SHA-256 of the
serialized Lead with the checksum field OMITTED (id, then checksum type,
then header size — no 32 zero bytes), followed by Preface, Index and
Signatures; all other header fields are unchanged. -/
theorem header_checksum_omits_field (sha256 : List Nat → List Nat)
    (h h2 : Header)
    (hok : Header.compute_and_set_checksum sha256 h = .ok h2) :
    h2.lead.header_checksum =
      sha256 (h.lead.id ++ h.lead.checksum_type.write_to ++
        h.lead.header_size.write_to ++ h.preface.write_to ++
        h.index.write_to ++ h.signatures.write_to) ∧
    h2.preface = h.preface ∧ h2.index = h.index ∧
    h2.signatures = h.signatures ∧ h2.lead.id = h.lead.id ∧
    h2.lead.checksum_type = h.lead.checksum_type ∧
    h2.lead.header_size = h.lead.header_size := by
  rw [Header.compute_and_set_checksum] at hok
  split at hok
  · exact Except.noConfusion hok
  · simp only [] at hok
    split at hok
    · injection hok with h2eq
      subst h2eq
      refine ⟨?_, rfl, rfl, rfl, rfl, rfl, rfl⟩
      show sha256 (h.write_to true) = _
      congr 1
      simp [Header.write_to, Lead.write_to]
    · exact Except.noConfusion hok

/-- Witness for C5's amended theorem at the concrete header and hash. -/
theorem header_checksum_omits_field_witness :
    Header.compute_and_set_checksum lengthTagHash demoHeader =
      .ok { demoHeader with lead := { demoHeader.lead with
        header_checksum := lengthTagHash (demoHeader.write_to true) } } ∧
    ({ demoHeader with lead := { demoHeader.lead with
        header_checksum := lengthTagHash (demoHeader.write_to true) } } :
          Header).lead.header_checksum =
      lengthTagHash (demoHeader.lead.id ++
        demoHeader.lead.checksum_type.write_to ++
        demoHeader.lead.header_size.write_to ++ demoHeader.preface.write_to ++
        demoHeader.index.write_to ++ demoHeader.signatures.write_to) :=
  ⟨rfl, (header_checksum_omits_field lengthTagHash demoHeader _ rfl).1⟩

end Zchunk

namespace Zchunk

/-- A hash standing in for SHA-512 that returns 64 zero bytes, so every
truncated digest is 16 zero bytes. -/
def zeroSha512 : List Nat → List Nat := fun _ => List.replicate 64 0

/-- A concrete decoder over the 5-byte stream `[9, 9, 7, 7, 7]` with a
2-byte header region: the single data chunk covers the 3 bytes
`[7, 7, 7]` but stores the checksum `replicate 16 1`, which does NOT match
the truncated digest `replicate 16 0` of those bytes under `zeroSha512`. -/
def badChecksumDecoder : Decoder :=
  ⟨⟨⟨ZCHUNK_VERSION_1, ⟨[0x81]⟩, ⟨[0x80]⟩, List.replicate 32 0⟩,
    ⟨List.replicate 32 0, ⟨⟨[0x80]⟩, 0⟩, ⟨[0x82]⟩, none⟩,
    ⟨⟨[0x94]⟩, ⟨[0x83]⟩, ⟨[0x82]⟩,
      ⟨none, List.replicate 16 0, ⟨[0x80]⟩, ⟨[0x80]⟩⟩,
      [(⟨none, List.replicate 16 1, ⟨[0x83]⟩, ⟨[0x83]⟩⟩, 0)]⟩,
    ⟨⟨[0x80]⟩, []⟩⟩, 2, ⟨[9, 9, 7, 7, 7], 2⟩⟩

/-- C2 counterexample: `decompress_to` emits the data chunk whose stored
checksum (16 ones) differs from the truncated digest of its bytes (16
zeros) — the decompress path performs no data-chunk checksum
verification. -/
theorem decompress_to_skips_chunk_verification :
    badChecksumDecoder.header.index.data_chunks.map (fun p => p.1.checksum) =
      [List.replicate 16 1] ∧
    (zeroSha512 [7, 7, 7]).take 16 = List.replicate 16 0 ∧
    List.replicate 16 1 ≠ List.replicate 16 0 ∧
    Decoder.decompress_to (fun _ => List.replicate 32 0) zeroSha512
        (fun b => .ok b) (fun b _ => .ok b) badChecksumDecoder =
      .ok ([7, 7, 7],
        { badChecksumDecoder with reader := ⟨[9, 9, 7, 7, 7], 5⟩ }) := by
  exact ⟨rfl, by decide, by decide, rfl⟩

/-- C2 amended: the checksum verification the spec describes lives in
`get_chunk_data` (used by `Decoder::new`'s callers, `get_uncompressed_dict`
and `sync_to`), not on the `decompress_to` data path: for a non-zero-length
chunk whose byte window is readable, `get_chunk_data` reads the
`length`-byte window at `header_size + offset`, hashes it according to the
index's checksum type, truncates the digest to 16 bytes, fails with
`chunkChecksumNotMatch` exactly when the stored checksum differs, and
returns the window bytes when it matches. -/
theorem get_chunk_data_verifies (sha256 sha512 : List Nat → List Nat)
    (d : Decoder) (offset : Nat) (chunk : Chunk) (ct l : Nat) (dg : List Nat)
    (hct : d.header.index.checksum_type.toU64 = .ok ct)
    (hlen : chunk.length.toU64 = .ok l) (hl : l ≠ 0)
    (hread : (d.header_size + offset) % 2 ^ 64 + l ≤ d.reader.data.length)
    (hdg : (ct % 256 = CHECKSUM_SHA256 ∧
        dg = (sha256 ((d.reader.data.drop ((d.header_size + offset) % 2 ^ 64)).take l)).take 16) ∨
      ((ct % 256 = CHECKSUM_SHA512 ∨ ct % 256 = CHECKSUM_SHA512_128) ∧
        dg = (sha512 ((d.reader.data.drop ((d.header_size + offset) % 2 ^ 64)).take l)).take 16)) :
    (chunk.checksum ≠ dg →
      d.get_chunk_data sha256 sha512 offset chunk =
        .error (.chunkChecksumNotMatch l chunk.checksum dg)) ∧
    (chunk.checksum = dg →
      d.get_chunk_data sha256 sha512 offset chunk =
        .ok ((d.reader.data.drop ((d.header_size + offset) % 2 ^ 64)).take l,
          { d with reader :=
            ⟨d.reader.data, (d.header_size + offset) % 2 ^ 64 + l⟩ })) := by
  have hstep := Decoder.get_chunk_data_step sha256 sha512 d offset chunk l ct
    hlen hl hread hct
  have hdisp : d.get_chunk_data sha256 sha512 offset chunk =
      (if chunk.checksum ≠ dg then
        .error (.chunkChecksumNotMatch l chunk.checksum dg)
      else .ok ((d.reader.data.drop ((d.header_size + offset) % 2 ^ 64)).take l,
        { d with reader :=
          ⟨d.reader.data, (d.header_size + offset) % 2 ^ 64 + l⟩ })) := by
    rw [hstep]
    rcases hdg with ⟨h1, h2⟩ | ⟨h1, h2⟩
    · rw [if_pos h1, except_bind_ok, ← h2]
    · rw [if_neg ?hne, if_pos h1, except_bind_ok, ← h2]
      case hne => rcases h1 with h1 | h1 <;> rw [h1] <;> decide
  constructor
  · intro hne
    rw [hdisp, if_pos hne]
  · intro heq
    rw [hdisp, if_neg (not_not_intro heq)]

/-- Witness for C2's amended theorem: on `badChecksumDecoder` the single
data chunk's stored checksum (16 ones) differs from the computed truncated
digest (16 zeros), so `get_chunk_data` fails with the mismatch error. -/
theorem get_chunk_data_verifies_witness :
    badChecksumDecoder.header.index.checksum_type.toU64 = .ok 3 ∧
    Decoder.get_chunk_data (fun _ => List.replicate 32 0) zeroSha512
        badChecksumDecoder 0
        ⟨none, List.replicate 16 1, ⟨[0x83]⟩, ⟨[0x83]⟩⟩ =
      .error (.chunkChecksumNotMatch 3 (List.replicate 16 1)
        ((zeroSha512 ((badChecksumDecoder.reader.data.drop
          ((badChecksumDecoder.header_size + 0) % 2 ^ 64)).take 3)).take 16)) := by
  have H := get_chunk_data_verifies (fun _ => List.replicate 32 0) zeroSha512
    badChecksumDecoder 0 ⟨none, List.replicate 16 1, ⟨[0x83]⟩, ⟨[0x83]⟩⟩ 3 3
    ((zeroSha512 ((badChecksumDecoder.reader.data.drop
      ((badChecksumDecoder.header_size + 0) % 2 ^ 64)).take 3)).take 16)
    rfl rfl (by decide) (by decide) (Or.inr ⟨by decide, rfl⟩)
  exact ⟨rfl, H.1 (by decide)⟩

end Zchunk
